import Mathlib

/-!
# video-shortener: scoring pipeline

A shallow embedding of the Go packages `score`, `upload` and `main` of the
video shortener, and the properties of its frame-scoring pipeline.

* `float64` values are modelled by `F64`: the IEEE special values plus the exact
  rational value of a finite number.  Only comparison and `%f` rendering are used.
* External commands (`mv`, the framer's ffmpeg calls) are recorded in an effect log
  that is passed through the code.
* The operating system, the HTTP server and `encoding/json` are an environment `Env`.
* A Go panic or `log.Fatalf` is an `Abort` carried by `Except`.
* Goroutines and unbuffered channels are a transition system: a scheduler choice
  (`Action`) moves one goroutine, or performs one rendezvous between a sender and a
  receiver.
-/

namespace VideoShortener

/-! ## float64 -/

/-- A `float64`: NaN, the two infinities, negative zero, or a finite number given by
its exact value (positive zero is `fin 0`). -/
inductive F64 where
  | nan
  | negInf
  | posInf
  | negZero
  | fin (q : ℚ)
  deriving DecidableEq

/-- The numeric value of a finite `float64` (both zeros are `0`). -/
def F64.mag : F64 → ℚ
  | .fin q => q
  | _ => 0

/-- Go's `a > b` on `float64`: false as soon as one side is NaN. -/
def F64.gt (a b : F64) : Bool :=
  match a, b with
  | .nan, _ => false
  | _, .nan => false
  | .negInf, _ => false
  | _, .posInf => false
  | _, .negInf => true
  | .posInf, _ => true
  | x, y => decide (y.mag < x.mag)

/-- Go's `a == b` on `float64`: NaN equals nothing, the two zeros are equal. -/
def F64.beq (a b : F64) : Bool :=
  match a, b with
  | .nan, _ => false
  | _, .nan => false
  | .negInf, .negInf => true
  | .posInf, .posInf => true
  | .negInf, _ => false
  | _, .negInf => false
  | .posInf, _ => false
  | _, .posInf => false
  | x, y => decide (x.mag = y.mag)

/-- Rounding to the nearest integer, ties to even, as `strconv` rounds decimals. -/
def roundHalfEven (t : ℚ) : ℤ :=
  let fl : ℤ := Rat.floor t
  let r : ℚ := t - fl
  if r < 1 / 2 then fl
  else if 1 / 2 < r then fl + 1
  else if fl % 2 = 0 then fl else fl + 1

/-- Six decimal digits, zero padded on the left. -/
def pad6 (n : ℕ) : String :=
  let s := toString n
  String.mk (List.replicate (6 - s.length) '0') ++ s

/-- The `%f` verb of `fmt.Sprintf` on a `float64` (six digits after the point). -/
def fmtF : F64 → String
  | .nan => "NaN"
  | .posInf => "+Inf"
  | .negInf => "-Inf"
  | .negZero => "-0.000000"
  | .fin q =>
    let n : ℕ := (roundHalfEven (|q| * 1000000)).toNat
    (if q < 0 then "-" else "") ++ toString (n / 1000000) ++ "." ++ pad6 (n % 1000000)

/-! ## package score: data -/

structure MovieFrame where
  Filename : String
  AllFramesPath : String
  GoodFramesPath : String
  deriving DecidableEq

structure Output where
  Filename : String
  TopScore : F64
  PredictedObject : String
  deriving DecidableEq

structure Line where
  Label : String
  Probability : F64
  deriving DecidableEq

structure Response where
  Filename : String
  Labels : List Line
  deriving DecidableEq

structure scorer where
  allFrames : String
  goodFrames : String
  threshold : F64
  deriving DecidableEq

def NewScorer (allFrames : String) (goodFrames : String) (threshold : F64) : scorer :=
  { allFrames := allFrames, goodFrames := goodFrames, threshold := threshold }

/-! ## external commands -/

/-- One external action of the filter stage, in the order it is issued. -/
inductive Effect where
  /-- The command `mv startingPath endingPath`, run by `moveFile`. -/
  | mv (startingPath : String) (endingPath : String)
  /-- The call `framer.CreateSoundFrame(outputFilename)`. -/
  | soundFrame (outputFilename : String)
  deriving DecidableEq

/-- Moves a file from one path to another: runs `mv`, ignoring its result. -/
def moveFile (startingPath : String) (endingPath : String) (w : List Effect) : List Effect :=
  w ++ [Effect.mv startingPath endingPath]

/-- The `CreateSoundFrame` method of the `frame.Framer` interface, as seen by its
caller: one call on the given file name. -/
def CreateSoundFrame (outputFilename : String) (w : List Effect) : List Effect :=
  w ++ [Effect.soundFrame outputFilename]

/-- The record `fmt.Sprintf("%s PASSED with a score of %f (thought it was %s).", ...)`. -/
def passRecord (output : Output) : String :=
  output.Filename ++ " PASSED with a score of " ++ fmtF output.TopScore
    ++ " (thought it was " ++ output.PredictedObject ++ ")."

/-- The record `fmt.Sprintf("%s failed with a score of %f", ...)`. -/
def failRecord (output : Output) : String :=
  output.Filename ++ " failed with a score of " ++ fmtF output.TopScore

/-- The method `scorer.FilterAndMoveOutput`: moves the files that pass to the directory
holding the good frames and creates the sound frame.  Returns the record and the
effect log. -/
def FilterAndMoveOutput (s : scorer) (output : Output) (w : List Effect) :
    String × List Effect :=
  if F64.gt output.TopScore s.threshold then
    let w1 := moveFile (s.allFrames ++ "/" ++ output.Filename) (s.goodFrames ++ "/.") w
    let w2 := CreateSoundFrame output.Filename w1
    (passRecord output, w2)
  else
    (failRecord output, w)

/-! ## package upload and ScoreFrame -/

/-- A `[]byte`. -/
abbrev Bytes := List UInt8

/-- How the process stops when it does not return. -/
inductive Abort where
  /-- A run-time panic (nil dereference, index out of range). -/
  | panic (msg : String)
  /-- The call `log.Fatalf`, which exits with status 1. -/
  | fatal (msg : String)
  deriving DecidableEq

/-- What `http.NewRequest` followed by `client.Do` yields. -/
inductive HttpResult where
  /-- The link does not parse: `NewRequest` returns a nil request. -/
  | badRequest
  /-- The request fails in transport: `Do` returns a nil response. -/
  | transportError
  /-- A response with its status code, status text and body. -/
  | response (statusCode : ℕ) (status : String) (body : Bytes)
  deriving DecidableEq

/-- The world around `ScoreFrame`. -/
structure Env where
  /-- Does `os.Open` of this path succeed? -/
  openFile : String → Bool
  /-- The POST of the file at the given path to the given link. -/
  post : String → String → HttpResult
  /-- The value `json.Unmarshal` leaves in a zero `Response`; its error is ignored by
  the caller, and on a syntax error the `Response` is left untouched. -/
  unmarshal : Bytes → Response

/-- The method `uploader.UploadImage`; `img` is the path of the opened file, or `none`
when `os.Open` failed and the file is nil. -/
def UploadImage (env : Env) (link : String) (img : Option String) : Except Abort Bytes :=
  match img with
  | none => .error (.panic "invalid memory address or nil pointer dereference")
  | some path =>
    match env.post link path with
    | .badRequest => .error (.panic "invalid memory address or nil pointer dereference")
    | .transportError => .error (.panic "invalid memory address or nil pointer dereference")
    | .response statusCode status body =>
      if statusCode ≠ 200 then .error (.fatal ("Unable to Send: " ++ status))
      else .ok body

/-- The function `ScoreFrame`: uploads the image to the scoring server and parses and
returns the output. -/
def ScoreFrame (env : Env) (link : String) (movieFrame : MovieFrame) : Except Abort Output :=
  let filename := movieFrame.Filename
  let path := movieFrame.AllFramesPath ++ "/" ++ filename
  let img := if env.openFile path then some path else none
  match UploadImage env link img with
  | .error e => .error e
  | .ok output =>
    let objmap := env.unmarshal output
    match objmap.Labels with
    | [] => .error (.panic "index out of range [0] with length 0")
    | l :: _ =>
      .ok { Filename := filename, TopScore := l.Probability, PredictedObject := l.Label }

/-! ## package main: flags -/

/-- The values of the command-line flags after `flag.Parse`. -/
structure Flags where
  threads : ℤ
  hertz : ℤ
  log : Bool
  movie : String
  link : String
  threshold : F64

/-- The function `parseParams`: `.error 1` is `flag.Usage()` followed by `os.Exit(1)`. -/
def parseParams (fl : Flags) : Except ℕ (ℤ × ℤ × F64 × Bool × String × String) :=
  if fl.threads < 0 ∨ fl.movie = "" ∨ fl.hertz < 1 ∨ fl.hertz > 10 ∨ fl.link = "" then
    .error 1
  else
    .ok (fl.threads, fl.hertz, fl.threshold, fl.log, fl.movie, fl.link)

/-- Which scoring function `main` calls. -/
inductive Mode where
  | sequential
  | parallel (threadCount : ℤ)
  deriving DecidableEq

/-- The choice `main` makes between `scoreSequential` and `scoreParallel`, its steps in
between (temporary directories, the framer's ffmpeg calls, the directory listing)
taken to succeed. -/
def mainMode (fl : Flags) : Except ℕ Mode :=
  match parseParams fl with
  | .error c => .error c
  | .ok (threadCount, _, _, _, _, _) =>
    if threadCount = 1 then .ok Mode.sequential else .ok (Mode.parallel threadCount)

/-! ## package main: sequential scoring -/

/-- The parameters shared by `scoreSequential` and `scoreParallel`. -/
structure Config where
  env : Env
  uploadLink : String
  allFrames : String
  goodFrames : String
  threshold : F64
  logScores : Bool

/-- The `MovieFrame` built for a file name by `gatherPaths` and by `scoreSequential`. -/
def mkFrame (c : Config) (name : String) : MovieFrame :=
  { Filename := name, AllFramesPath := c.allFrames, GoodFramesPath := c.goodFrames }

/-- What a run of `scoreSequential` has done so far. -/
structure Trace where
  /-- External commands issued, oldest first. -/
  effects : List Effect
  /-- Every `result` computed by the loop, oldest first. -/
  results : List String
  /-- Lines printed by `log.Println`, oldest first. -/
  logged : List String
  deriving DecidableEq

/-- The loop of `scoreSequential` over the remaining files; the first component is the
abort that stopped the program, if any. -/
def seqLoop (c : Config) (sc : scorer) : List String → Trace → Option Abort × Trace
  | [], tr => (none, tr)
  | i :: rest, tr =>
    match ScoreFrame c.env c.uploadLink (mkFrame c i) with
    | .error e => (some e, tr)
    | .ok output =>
      let (result, w) := FilterAndMoveOutput sc output tr.effects
      seqLoop c sc rest
        { effects := w
          results := tr.results ++ [result]
          logged := if c.logScores then tr.logged ++ [result] else tr.logged }

/-- The function `scoreSequential` on the names of `files`. -/
def scoreSequential (c : Config) (files : List String) : Option Abort × Trace :=
  seqLoop c (NewScorer c.allFrames c.goodFrames c.threshold) files
    { effects := [], results := [], logged := [] }

/-! ## package main: the pipeline of `scoreParallel` -/

/-- Where a stage goroutine stands: `recv` is blocked in `for i := range input`,
`send v` is blocked in its `select` offering `v` on its output, `exited` has returned
(its deferred `close` or `wg.Done` has run). -/
inductive Stg (α : Type) where
  | recv
  | send (v : α)
  | exited
  deriving DecidableEq

/-- The value a stage is offering, if any. -/
def Stg.held {α : Type} : Stg α → List α
  | .send v => [v]
  | _ => []

/-- Steps a stage still has to take: its exit, plus `k` hand-overs of a held value. -/
def Stg.cost {α : Type} (k : ℕ) : Stg α → ℕ
  | .recv => 1
  | .send _ => 1 + k
  | .exited => 0

/-- One worker of the pool with the relay goroutine `fanInOutput` starts on its channel. -/
structure Lane where
  worker : Stg Output
  relay : Stg Output
  deriving DecidableEq

/-- The state of all goroutines of `scoreParallel`. -/
structure Pipeline where
  /-- The channel `done` has been closed. -/
  done : Bool
  /-- The process has stopped on a panic or `log.Fatalf`. -/
  crashed : Option Abort
  /-- File names `collectFileNames` has not sent yet. -/
  names : List String
  /-- The goroutine of `collectFileNames` has returned and closed `nameStream`. -/
  namesClosed : Bool
  /-- The goroutine of `gatherPaths`; `exited` means `intStream` is closed. -/
  gather : Stg MovieFrame
  /-- History: every value delivered on `intStream`, oldest first. -/
  framesLog : List MovieFrame
  /-- The workers and their relays. -/
  lanes : List Lane
  /-- The close coordinator of `fanInOutput` has closed `aggregateStream`. -/
  aggClosed : Bool
  /-- The goroutine of `FilterAndMoveAllOutput`; `exited` means `moved` is closed. -/
  filter : Stg String
  /-- External commands issued by the filter stage, oldest first. -/
  effects : List Effect
  /-- Every record the loop of `scoreParallel` received from `moved`, oldest first. -/
  received : List String
  /-- Lines printed by `log.Println`, oldest first. -/
  logged : List String
  /-- The loop of `scoreParallel` has seen `moved` closed and the function has returned. -/
  mainDone : Bool
  deriving DecidableEq

/-- The state right after `scoreParallel` has started all goroutines. -/
def Pipeline.init (files : List String) (threadCount : ℕ) : Pipeline :=
  { done := false
    crashed := none
    names := files
    namesClosed := false
    gather := .recv
    framesLog := []
    lanes := List.replicate threadCount { worker := .recv, relay := .recv }
    aggClosed := false
    filter := .recv
    effects := []
    received := []
    logged := []
    mainDone := false }

/-- A scheduler choice: one goroutine moves, or a sender and a receiver meet on an
unbuffered channel. -/
inductive Action where
  /-- `collectFileNames` hands a name to `gatherPaths` on `nameStream`. -/
  | sendName
  /-- `collectFileNames` finishes its loop and closes `nameStream`. -/
  | closeNames
  /-- `collectFileNames` takes the `<-done` case. -/
  | cancelNames
  /-- `gatherPaths` finds `nameStream` closed and closes `intStream`. -/
  | gatherEnd
  /-- `gatherPaths` takes the `<-done` case. -/
  | cancelGather
  /-- Worker `i` receives a frame from `intStream` and evaluates `ScoreFrame` on it. -/
  | sendFrame (i : ℕ)
  /-- Worker `i` finds `intStream` closed and closes its output. -/
  | workerEnd (i : ℕ)
  /-- Worker `i` takes the `<-done` case. -/
  | cancelWorker (i : ℕ)
  /-- Worker `i` hands its output to relay `i`. -/
  | sendOutput (i : ℕ)
  /-- Relay `i` finds its channel closed and calls `wg.Done`. -/
  | relayEnd (i : ℕ)
  /-- Relay `i` takes the `<-done` case. -/
  | cancelRelay (i : ℕ)
  /-- Relay `i` hands its value to the filter stage on `aggregateStream`; the filter
  stage evaluates `FilterAndMoveOutput` on it. -/
  | sendAggregate (i : ℕ)
  /-- The close coordinator returns from `wg.Wait` and closes `aggregateStream`. -/
  | closeAggregate
  /-- The filter stage finds `aggregateStream` closed and closes `moved`. -/
  | filterEnd
  /-- The filter stage takes the `<-done` case. -/
  | cancelFilter
  /-- The loop of `scoreParallel` receives a record from `moved`. -/
  | recvMoved
  /-- The loop of `scoreParallel` finds `moved` closed; the function returns and its
  deferred `close(done)` runs. -/
  | mainEnd
  deriving DecidableEq

/-- The step of the pipeline under a scheduler choice; `none` when the choice is not
possible in the state. -/
def step (c : Config) (a : Action) (s : Pipeline) : Option Pipeline :=
  if s.crashed ≠ none then none else
  match a with
  | .sendName =>
    match s.names with
    | f :: rest =>
      if s.namesClosed = false ∧ s.gather = .recv then
        some { s with names := rest, gather := .send (mkFrame c f) }
      else none
    | [] => none
  | .closeNames =>
    if s.names = [] ∧ s.namesClosed = false then some { s with namesClosed := true } else none
  | .cancelNames =>
    if s.done = true ∧ s.names ≠ [] ∧ s.namesClosed = false then
      some { s with namesClosed := true }
    else none
  | .gatherEnd =>
    if s.gather = .recv ∧ s.namesClosed = true then some { s with gather := .exited } else none
  | .cancelGather =>
    match s.gather with
    | .send _ => if s.done = true then some { s with gather := .exited } else none
    | _ => none
  | .sendFrame i =>
    match s.gather, s.lanes[i]? with
    | .send v, some ln =>
      if ln.worker = .recv then
        match ScoreFrame c.env c.uploadLink v with
        | .ok o =>
          some { s with gather := .recv, framesLog := s.framesLog ++ [v],
                        lanes := s.lanes.set i { ln with worker := .send o } }
        | .error e =>
          some { s with gather := .recv, framesLog := s.framesLog ++ [v], crashed := some e }
      else none
    | _, _ => none
  | .workerEnd i =>
    match s.lanes[i]? with
    | some ln =>
      if ln.worker = .recv ∧ s.gather = .exited then
        some { s with lanes := s.lanes.set i { ln with worker := .exited } }
      else none
    | none => none
  | .cancelWorker i =>
    match s.lanes[i]? with
    | some ln =>
      match ln.worker with
      | .send _ =>
        if s.done = true then some { s with lanes := s.lanes.set i { ln with worker := .exited } }
        else none
      | _ => none
    | none => none
  | .sendOutput i =>
    match s.lanes[i]? with
    | some ln =>
      match ln.worker with
      | .send o =>
        if ln.relay = .recv then
          some { s with lanes := s.lanes.set i { worker := .recv, relay := .send o } }
        else none
      | _ => none
    | none => none
  | .relayEnd i =>
    match s.lanes[i]? with
    | some ln =>
      if ln.relay = .recv ∧ ln.worker = .exited then
        some { s with lanes := s.lanes.set i { ln with relay := .exited } }
      else none
    | none => none
  | .cancelRelay i =>
    match s.lanes[i]? with
    | some ln =>
      match ln.relay with
      | .send _ =>
        if s.done = true then some { s with lanes := s.lanes.set i { ln with relay := .exited } }
        else none
      | _ => none
    | none => none
  | .sendAggregate i =>
    match s.lanes[i]? with
    | some ln =>
      match ln.relay with
      | .send o =>
        if s.filter = .recv then
          let r := FilterAndMoveOutput (NewScorer c.allFrames c.goodFrames c.threshold) o s.effects
          some { s with lanes := s.lanes.set i { ln with relay := .recv },
                        filter := .send r.1, effects := r.2 }
        else none
      | _ => none
    | none => none
  | .closeAggregate =>
    if s.aggClosed = false ∧ (s.lanes.all fun ln => decide (ln.relay = .exited)) = true then
      some { s with aggClosed := true }
    else none
  | .filterEnd =>
    if s.filter = .recv ∧ s.aggClosed = true then some { s with filter := .exited } else none
  | .cancelFilter =>
    match s.filter with
    | .send _ => if s.done = true then some { s with filter := .exited } else none
    | _ => none
  | .recvMoved =>
    match s.filter with
    | .send m =>
      if s.mainDone = false then
        some { s with filter := .recv, received := s.received ++ [m],
                      logged := if c.logScores then s.logged ++ [m] else s.logged }
      else none
    | _ => none
  | .mainEnd =>
    if s.filter = .exited ∧ s.mainDone = false then
      some { s with mainDone := true, done := true }
    else none

/-- The state after a schedule, `none` when some choice of the schedule is not possible. -/
def run (c : Config) : Pipeline → List Action → Option Pipeline
  | s, [] => some s
  | s, a :: as =>
    match step c a s with
    | some t => run c t as
    | none => none

/-- The function `scoreParallel` on the names of `files` with `threadCount` workers: the
state its goroutines reach under a schedule. -/
def scoreParallel (c : Config) (files : List String) (threadCount : ℕ)
    (sched : List Action) : Option Pipeline :=
  run c (Pipeline.init files threadCount) sched

/-- The state in which `done` has been closed from outside. -/
def Pipeline.fire (s : Pipeline) : Pipeline := { s with done := true }

/-- Every goroutine started by `scoreParallel` has returned and closed its output. -/
def Pipeline.allExited (s : Pipeline) : Prop :=
  s.namesClosed = true ∧ s.gather = .exited ∧
  (∀ ln ∈ s.lanes, ln.worker = .exited ∧ ln.relay = .exited) ∧
  s.aggClosed = true ∧ s.filter = .exited

/-- The number of steps the pipeline can still take, at most. -/
def Pipeline.potential (s : Pipeline) : ℕ :=
  (if s.crashed = none then 1 else 0) + 5 * s.names.length + (if s.namesClosed then 0 else 1)
    + s.gather.cost 4
    + (s.lanes.map fun ln => ln.worker.cost 3 + ln.relay.cost 2).sum
    + (if s.aggClosed then 0 else 1) + s.filter.cost 1 + (if s.mainDone then 0 else 1)

/-! ## fanInOutput on arbitrary input channels -/

/-- One input channel of `fanInOutput` with the `aggregate` goroutine started on it. -/
structure Feed where
  /-- The values the sender of this channel has still to send, next first. -/
  pending : List Output
  /-- The sender has closed the channel. -/
  closed : Bool
  /-- The goroutine `aggregate(c)`; `exited` means its `wg.Done` has run. -/
  relay : Stg Output
  deriving DecidableEq

/-- The state of `fanInOutput` and of the senders on its input channels. -/
structure FanIn where
  /-- The channel `done` has been closed. -/
  done : Bool
  feeds : List Feed
  /-- The close coordinator has closed `aggregateStream`. -/
  aggClosed : Bool
  /-- History: every value delivered on `aggregateStream`, oldest first, with the index
  of the input channel it was taken from. -/
  aggLog : List (ℕ × Output)
  deriving DecidableEq

/-- The state right after `fanInOutput(done, channels...)` returns, where channel `i`
is going to carry the values `inputs[i]` and is then closed. -/
def FanIn.init (inputs : List (List Output)) : FanIn :=
  { done := false
    feeds := inputs.map fun xs => { pending := xs, closed := false, relay := .recv }
    aggClosed := false
    aggLog := [] }

/-- A scheduler choice for `fanInOutput` and its environment. -/
inductive FanAction where
  /-- The sender of channel `i` hands its next value to `aggregate(c)`. -/
  | feed (i : ℕ)
  /-- The sender of channel `i`, having sent everything, closes the channel. -/
  | closeInput (i : ℕ)
  /-- The goroutine on channel `i` finds it closed and calls `wg.Done`. -/
  | relayEnd (i : ℕ)
  /-- The goroutine on channel `i` takes the `<-done` case. -/
  | cancelRelay (i : ℕ)
  /-- The goroutine on channel `i` delivers its value on `aggregateStream`. -/
  | forward (i : ℕ)
  /-- The close coordinator returns from `wg.Wait` and closes `aggregateStream`. -/
  | closeAggregate
  deriving DecidableEq

/-- The step of `fanInOutput` under a scheduler choice; `none` when it is not possible. -/
def fanStep (a : FanAction) (s : FanIn) : Option FanIn :=
  match a with
  | .feed i =>
    match s.feeds[i]? with
    | some fd =>
      match fd.pending with
      | v :: rest =>
        if fd.closed = false ∧ fd.relay = .recv then
          some { s with feeds := s.feeds.set i { fd with pending := rest, relay := .send v } }
        else none
      | [] => none
    | none => none
  | .closeInput i =>
    match s.feeds[i]? with
    | some fd =>
      if fd.pending = [] ∧ fd.closed = false then
        some { s with feeds := s.feeds.set i { fd with closed := true } }
      else none
    | none => none
  | .relayEnd i =>
    match s.feeds[i]? with
    | some fd =>
      if fd.relay = .recv ∧ fd.closed = true then
        some { s with feeds := s.feeds.set i { fd with relay := .exited } }
      else none
    | none => none
  | .cancelRelay i =>
    match s.feeds[i]? with
    | some fd =>
      match fd.relay with
      | .send _ =>
        if s.done = true then some { s with feeds := s.feeds.set i { fd with relay := .exited } }
        else none
      | _ => none
    | none => none
  | .forward i =>
    match s.feeds[i]? with
    | some fd =>
      match fd.relay with
      | .send v =>
        some { s with feeds := s.feeds.set i { fd with relay := .recv },
                      aggLog := s.aggLog ++ [(i, v)] }
      | _ => none
    | none => none
  | .closeAggregate =>
    if s.aggClosed = false ∧ (s.feeds.all fun fd => decide (fd.relay = .exited)) = true then
      some { s with aggClosed := true }
    else none

/-- The state of `fanInOutput` after a schedule, `none` when some choice is not possible. -/
def fanRun : FanIn → List FanAction → Option FanIn
  | s, [] => some s
  | s, a :: as =>
    match fanStep a s with
    | some t => fanRun t as
    | none => none

/-- The function `fanInOutput` on channels that carry `inputs`: the state it and the
senders of its channels reach under a schedule. -/
def fanInOutput (inputs : List (List Output)) (sched : List FanAction) : Option FanIn :=
  fanRun (FanIn.init inputs) sched

/-- The values of the aggregate history that came from input channel `i`, in order. -/
def fromInput (i : ℕ) (log : List (ℕ × Output)) : List Output :=
  (log.filter fun p => p.1 == i).map Prod.snd

/-! ## concrete inputs -/

/-- The `float64` nearest to 0.9. -/
def score09 : F64 := .fin (8106479329266893 / 9007199254740992)

/-- The `float64` 0.5. -/
def score05 : F64 := .fin (1 / 2)

/-- The `float64` nearest to 0.2. -/
def score02 : F64 := .fin (3602879701896397 / 18014398509481984)

/-- A server that answers the upload of frame `a`, `b`, `c` with a body (one byte here)
that decodes to a label list whose first entry has probability 0.9, 0.5, 0.2; every
other frame is answered like `c`. -/
def scenarioEnv : Env :=
  { openFile := fun _ => true
    post := fun _ path =>
      if path = "all/a" then .response 200 "200 OK" [97]
      else if path = "all/b" then .response 200 "200 OK" [98]
      else .response 200 "200 OK" [99]
    unmarshal := fun body =>
      if body = [97] then
        { Filename := "a", Labels := [⟨"cat", score09⟩, ⟨"dog", score02⟩] }
      else if body = [98] then
        { Filename := "b", Labels := [⟨"dog", score05⟩, ⟨"cat", score09⟩] }
      else
        { Filename := "c", Labels := [⟨"car", score02⟩] } }

/-- The scenario of the threshold 0.5 over the frames `a`, `b`, `c`. -/
def scenarioConfig : Config :=
  { env := scenarioEnv, uploadLink := "http://localhost:5000/predict"
    allFrames := "all", goodFrames := "good", threshold := score05, logScores := true }

/-- A server that answers every upload like `scenarioEnv`, except the upload of frame
`c`, which it answers with status 500. -/
def failingEnv : Env :=
  { scenarioEnv with
    post := fun link path =>
      if path = "all/c" then .response 500 "500 Internal Server Error" []
      else scenarioEnv.post link path }

/-- The scenario of five frames of which the third cannot be scored. -/
def failingConfig : Config := { scenarioConfig with env := failingEnv }

/-- The flags of `-threads 0 -movie movie.mp4 -link http://localhost:5000/predict`. -/
def zeroThreadFlags : Flags :=
  { threads := 0, hertz := 1, log := false, movie := "movie.mp4"
    link := "http://localhost:5000/predict", threshold := score02 }

/-! ## invariants of the pipeline -/

/-- The record `FilterAndMoveOutput` returns for an output. -/
def outcome (c : Config) (o : Output) : String :=
  (FilterAndMoveOutput (NewScorer c.allFrames c.goodFrames c.threshold) o []).1

/-- The record the pipeline yields for a frame that `ScoreFrame` scores. -/
def recordOf (c : Config) (v : MovieFrame) : String :=
  match ScoreFrame c.env c.uploadLink v with
  | .ok o => outcome c o
  | .error _ => ""

/-- The records of the outputs a worker and its relay are holding. -/
def Lane.records (c : Config) (ln : Lane) : Multiset String :=
  (↑(ln.worker.held.map (outcome c)) : Multiset String) + ↑(ln.relay.held.map (outcome c))

/-- The records of everything in the pipeline: of the names not sent yet, of the values
the stages are holding, and the records received. -/
def Pipeline.records (c : Config) (s : Pipeline) : Multiset String :=
  (↑(s.names.map fun x => recordOf c (mkFrame c x)) : Multiset String)
    + ↑(s.gather.held.map (recordOf c)) + (s.lanes.map (Lane.records c)).sum
    + ↑s.filter.held + ↑s.received

/-- Each stage has exited only after the stage before it has: a channel is closed only
by its sender, after the sender's own input was closed and drained. -/
def Pipeline.closedInOrder (s : Pipeline) : Prop :=
  (s.namesClosed = true → s.names = []) ∧
  (s.gather = .exited → s.namesClosed = true) ∧
  (∀ ln ∈ s.lanes, ln.worker = .exited → s.gather = .exited) ∧
  (∀ ln ∈ s.lanes, ln.relay = .exited → ln.worker = .exited) ∧
  (s.aggClosed = true → ∀ ln ∈ s.lanes, ln.relay = .exited) ∧
  (s.filter = .exited → s.aggClosed = true)

/-- The frames delivered on `intStream`, the frame `gatherPaths` is offering and the
names still to come make up the frames of the files, in order. -/
def Pipeline.framesInOrder (c : Config) (files : List String) (s : Pipeline) : Prop :=
  s.framesLog ++ s.gather.held ++ s.names.map (mkFrame c) = files.map (mkFrame c)

/-- The target of the pipeline: one record per file, as a multiset. -/
def targetRecords (c : Config) (files : List String) : Multiset String :=
  ↑(files.map fun x => recordOf c (mkFrame c x))

/-- What holds of `scoreParallel` along every schedule when each file can be scored and
there is a worker: until the function returns, nothing is lost, duplicated or closed
too early; once it has returned, everything has exited and every record was received. -/
def Pipeline.sound (c : Config) (files : List String) (s : Pipeline) : Prop :=
  s.lanes ≠ [] ∧ s.crashed = none ∧
  ((s.done = false ∧ s.mainDone = false ∧ s.closedInOrder ∧ s.framesInOrder c files ∧
      s.records c = targetRecords c files) ∨
   (s.allExited ∧ s.mainDone = true ∧ s.framesLog = files.map (mkFrame c) ∧
      (↑s.received : Multiset String) = targetRecords c files))

/-- The scores of the frames `a`, `b`, `c` under `scenarioEnv`. -/
def scenarioScore (x : String) : Output :=
  if x = "a" then ⟨"a", score09, "cat"⟩
  else if x = "b" then ⟨"b", score05, "dog"⟩
  else ⟨"c", score02, "car"⟩

/-- A schedule of two workers over the frames `a`, `b`, `c` that runs to the return of
`scoreParallel`; the records arrive in the order `b`, `a`, `c`. -/
def sampleSchedule : List Action :=
  [.sendName, .sendFrame 0, .sendName, .sendFrame 1, .sendOutput 1, .sendAggregate 1,
    .recvMoved, .sendName, .sendOutput 0, .sendFrame 0, .sendAggregate 0, .recvMoved,
    .sendOutput 0, .sendAggregate 0, .recvMoved, .closeNames, .gatherEnd, .workerEnd 0,
    .workerEnd 1, .relayEnd 0, .relayEnd 1, .closeAggregate, .filterEnd, .mainEnd]

/-- What holds of `fanInOutput` along every schedule without cancellation: the values
delivered from input `i`, the value its goroutine holds and the values still to come
make up the sequence of input `i`; a goroutine exits only on a closed input, an input
is closed only when drained, and `aggregateStream` is closed only after all goroutines
have exited. -/
def FanIn.wellFormed (inputs : List (List Output)) (s : FanIn) : Prop :=
  s.done = false ∧
  (∀ p ∈ s.aggLog, p.1 < inputs.length) ∧
  (s.aggClosed = true → ∀ fd ∈ s.feeds, fd.relay = .exited) ∧
  ∀ (i : ℕ) (fd : Feed), s.feeds[i]? = some fd →
    inputs[i]? = some (fromInput i s.aggLog ++ fd.relay.held ++ fd.pending) ∧
    (fd.closed = true → fd.pending = []) ∧
    (fd.relay = .exited → fd.closed = true)

/-- Two input channels for `fanInOutput`: the first carries the outputs of `a` and `b`,
the second the output of `c`. -/
def sampleInputs : List (List Output) :=
  [[⟨"a", score09, "cat"⟩, ⟨"b", score05, "dog"⟩], [⟨"c", score02, "car"⟩]]

/-- A schedule of `fanInOutput` over `sampleInputs` up to the close of
`aggregateStream`; the values are delivered in the order `c`, `a`, `b`. -/
def sampleFanSchedule : List FanAction :=
  [.feed 0, .feed 1, .forward 1, .forward 0, .feed 0, .closeInput 1, .relayEnd 1,
    .forward 0, .closeInput 0, .relayEnd 0, .closeAggregate]

/-! ## package frame: CreateSoundFrame -/

/-- The part of `s` before the first `.`: `strings.Split(s, ".")[0]`. -/
def splitFirst (s : String) : String :=
  String.mk (s.data.takeWhile fun ch => ch != '.')

/-- The library function `strings.TrimLeft(s, cutset)`: `s` without its leading
characters that occur in `cutset`. -/
def TrimLeft (s : String) (cutset : String) : String :=
  String.mk (s.data.dropWhile fun ch => cutset.data.contains ch)

/-- The errors of `strconv`: `invalid` is `ErrSyntax`, `outOfRange` is `ErrRange`. -/
inductive NumError where
  | invalid
  | outOfRange
  deriving DecidableEq

/-- The largest `uint64`. -/
def maxUint64 : ℕ := 18446744073709551615

/-- The value of a byte as a digit in base 10; a letter has a value of 10 or more, which
base 10 rejects like any other byte. -/
def digitValue (ch : Char) : Option ℕ :=
  if 48 ≤ ch.toNat ∧ ch.toNat ≤ 57 then some (ch.toNat - 48) else none

/-- The loop of `strconv.ParseUint(s, 10, 64)` over the remaining bytes, `n` being the
number read so far. -/
def parseUintLoop : List Char → ℕ → ℕ × Option NumError
  | [], n => (n, none)
  | ch :: rest, n =>
    match digitValue ch with
    | none => (0, some .invalid)
    | some d =>
      if n ≥ maxUint64 / 10 + 1 then (maxUint64, some .outOfRange)
      else if n * 10 + d > maxUint64 then (maxUint64, some .outOfRange)
      else parseUintLoop rest (n * 10 + d)

/-- The library function `strconv.ParseUint(s, 10, 64)`. -/
def ParseUint (s : List Char) : ℕ × Option NumError :=
  match s with
  | [] => (0, some .invalid)
  | _ => parseUintLoop s 0

/-- The library function `strconv.ParseInt(s, 10, 64)`: the `int64` and the error. -/
def ParseInt (s : String) : ℤ × Option NumError :=
  match s.data with
  | [] => (0, some .invalid)
  | ch :: rest =>
    let neg : Bool := ch == '-'
    let body := if ch == '+' || ch == '-' then rest else ch :: rest
    match ParseUint body with
    | (_, some .invalid) => (0, some .invalid)
    | (un, _) =>
      if !neg && decide (un ≥ 9223372036854775808) then
        (9223372036854775807, some .outOfRange)
      else if neg && decide (un > 9223372036854775808) then
        (-9223372036854775808, some .outOfRange)
      else (if neg then -(un : ℤ) else (un : ℤ), none)

/-- The fields of `framer`. -/
structure framer where
  allFrames : String
  goodFrames : String
  allSoundFrames : String
  goodSoundFrames : String
  moviePath : String
  hertz : ℤ
  duration : F64
  frameCount : ℤ

/-- The `float64` arithmetic of `CreateSoundFrame`, left uninterpreted: `size` is the
clip length computed from `hertz`, and `stuff` is `secondsToMinutesToMillis` of the
position computed from `duration`, `frameCount` and the frame number. -/
structure ClipTiming where
  size : ℤ → String
  stuff : F64 → ℤ → ℤ → String

/-- The first two statements of `CreateSoundFrame`: the frame name and the frame number
parsed from it, the error of `ParseInt` being dropped. -/
def parseFrameName (outputFilename : String) : String × ℤ :=
  let frameName := splitFirst outputFilename
  let n := (ParseInt (TrimLeft frameName "0")).1
  (frameName, n)

/-- The method `framer.CreateSoundFrame`: the arguments of the `ffmpeg` command it runs. -/
def framer.CreateSoundFrame (f : framer) (tm : ClipTiming) (outputFilename : String) :
    List String :=
  let (frameName, n) := parseFrameName outputFilename
  let size := tm.size f.hertz
  let stuff := tm.stuff f.duration f.frameCount n
  ["-i", f.allSoundFrames ++ "/output-audio.aac", "-ss", stuff, "-t", size, "-c", "copy",
    f.goodSoundFrames ++ "/" ++ frameName ++ ".aac"]

/-- The decimal digits of `n`, most significant first: the verb `%d`. -/
def decimal (n : ℕ) : List Char :=
  if n = 0 then ['0'] else (Nat.digits 10 n).reverse.map Nat.digitChar

/-- A frame name: `pad` zeros, the decimal digits of `n`, a dot and an extension. -/
def paddedName (pad : ℕ) (n : ℕ) (ext : String) : String :=
  String.mk (List.replicate pad '0' ++ decimal n) ++ "." ++ ext

/-- The name of frame `n` under the pattern `%09d.jpg` that `MakeFrames` gives ffmpeg. -/
def frameFileName (n : ℕ) : String :=
  paddedName (9 - (decimal n).length) n "jpg"

/-- A framer of a 60 second movie at 1 hertz. -/
def sampleFramer : framer :=
  { allFrames := "all", goodFrames := "good", allSoundFrames := "allSound"
    goodSoundFrames := "goodSound", moviePath := "movie.mp4", hertz := 1
    duration := .fin 60, frameCount := 62 }

/-! ## gatherPaths over collectFileNames on its own -/

/-- The state of the two goroutines behind `gatherPaths(done, inputPath, outputPath,
collectFileNames(done, files...))` and of the receiver of its stream. -/
structure FrameStream where
  /-- The channel `done` has been closed. -/
  done : Bool
  /-- File names `collectFileNames` has not sent yet. -/
  names : List String
  /-- The goroutine of `collectFileNames` has returned and closed `nameStream`. -/
  namesClosed : Bool
  /-- The goroutine of `gatherPaths`; `exited` means `intStream` is closed. -/
  gather : Stg MovieFrame
  /-- History: every value the receiver has taken from `intStream`, oldest first. -/
  delivered : List MovieFrame
  deriving DecidableEq

/-- The state right after `gatherPaths(done, ..., collectFileNames(done, files...))`
returns its stream. -/
def FrameStream.init (files : List String) : FrameStream :=
  { done := false, names := files, namesClosed := false, gather := .recv, delivered := [] }

/-- A scheduler choice for the two goroutines and the receiver of the stream. -/
inductive StreamAction where
  /-- `collectFileNames` hands a name to `gatherPaths` on `nameStream`. -/
  | sendName
  /-- `collectFileNames` finishes its loop and closes `nameStream`. -/
  | closeNames
  /-- `collectFileNames` takes the `<-done` case. -/
  | cancelNames
  /-- `gatherPaths` finds `nameStream` closed and closes `intStream`. -/
  | gatherEnd
  /-- `gatherPaths` takes the `<-done` case. -/
  | cancelGather
  /-- The receiver takes the frame `gatherPaths` is offering on `intStream`. -/
  | take
  deriving DecidableEq

/-- The step of the stream under a scheduler choice; `none` when it is not possible. -/
def streamStep (inputPath : String) (outputPath : String) (a : StreamAction)
    (s : FrameStream) : Option FrameStream :=
  match a with
  | .sendName =>
    match s.names with
    | i :: rest =>
      if s.namesClosed = false ∧ s.gather = .recv then
        some { s with names := rest,
                      gather := .send { Filename := i, AllFramesPath := inputPath,
                                        GoodFramesPath := outputPath } }
      else none
    | [] => none
  | .closeNames =>
    if s.names = [] ∧ s.namesClosed = false then some { s with namesClosed := true } else none
  | .cancelNames =>
    if s.done = true ∧ s.names ≠ [] ∧ s.namesClosed = false then
      some { s with namesClosed := true }
    else none
  | .gatherEnd =>
    if s.gather = .recv ∧ s.namesClosed = true then some { s with gather := .exited } else none
  | .cancelGather =>
    match s.gather with
    | .send _ => if s.done = true then some { s with gather := .exited } else none
    | _ => none
  | .take =>
    match s.gather with
    | .send v => some { s with gather := .recv, delivered := s.delivered ++ [v] }
    | _ => none

/-- The state of the stream after a schedule, `none` when some choice is not possible. -/
def streamRun (inputPath : String) (outputPath : String) :
    FrameStream → List StreamAction → Option FrameStream
  | s, [] => some s
  | s, a :: as =>
    match streamStep inputPath outputPath a s with
    | some t => streamRun inputPath outputPath t as
    | none => none

/-- The function `gatherPaths` on the stream of `collectFileNames(done, files...)`: the
state the two goroutines and the receiver reach under a schedule. -/
def gatherPaths (inputPath : String) (outputPath : String) (files : List String)
    (sched : List StreamAction) : Option FrameStream :=
  streamRun inputPath outputPath (FrameStream.init files) sched

/-- The number of steps the stream can still take, at most. -/
def FrameStream.potential (s : FrameStream) : ℕ :=
  2 * s.names.length + (if s.namesClosed then 0 else 1) + s.gather.cost 1

/-- What holds of the stream along every schedule without cancellation: `nameStream` is
closed only when every name was sent, `intStream` only after `nameStream`, and the
frames taken, the frame offered and the frames of the names still to come make up the
frames of the files, in order. -/
def FrameStream.ordered (inputPath : String) (outputPath : String) (files : List String)
    (s : FrameStream) : Prop :=
  s.done = false ∧
  (s.namesClosed = true → s.names = []) ∧
  (s.gather = .exited → s.namesClosed = true) ∧
  s.delivered ++ s.gather.held ++
      s.names.map (fun i =>
        { Filename := i, AllFramesPath := inputPath, GoodFramesPath := outputPath }) =
    files.map (fun i =>
      { Filename := i, AllFramesPath := inputPath, GoodFramesPath := outputPath })

/-- A schedule of the stream over the frames `a`, `b`, `c` up to the close of
`intStream`. -/
def sampleStreamSchedule : List StreamAction :=
  [.sendName, .take, .sendName, .take, .sendName, .closeNames, .take, .gatherEnd]

/-- A schedule of one worker in which `done` is closed from outside and the worker then
still receives the frame `c`, whose upload the server answers with status 500. -/
def fatalAfterCancel : List Action :=
  [.sendName, .sendFrame 0]

/-- A start of a schedule of two workers over the frames `a`, `b`, `c`: the first
worker holds the output of `a` and `gatherPaths` offers the frame of `b`. -/
def midRunSchedule : List Action :=
  [.sendName, .sendFrame 0, .sendName]

/-- A schedule after `done` was closed in the middle of a run: every goroutine that is
offering a value takes the `<-done` case, the others find their input closed. -/
def midRunCancelSchedule : List Action :=
  [.cancelNames, .cancelGather, .cancelWorker 0, .workerEnd 1, .relayEnd 0, .relayEnd 1,
    .closeAggregate, .filterEnd, .mainEnd]

/-! # Properties -/

/-! ## float64 comparison -/

theorem F64.gt_fin (a b : ℚ) : F64.gt (.fin a) (.fin b) = true ↔ b < a := by
  simp [F64.gt, F64.mag]

theorem F64.gt_irrefl (a : F64) : F64.gt a a = false := by
  cases a <;> simp [F64.gt]

theorem F64.not_gt_of_beq (a b : F64) (h : F64.beq a b = true) : F64.gt a b = false := by
  cases a <;> cases b <;> simp_all [F64.beq, F64.gt, F64.mag]

theorem gt_09_05 : F64.gt score09 score05 = true := by
  simp [F64.gt, F64.mag, score09, score05]
  norm_num

theorem gt_05_05 : F64.gt score05 score05 = false := F64.gt_irrefl _

theorem gt_02_05 : F64.gt score02 score05 = false := by
  simp [F64.gt, F64.mag, score02, score05]
  norm_num

theorem beq_05_05 : F64.beq score05 score05 = true := by
  simp [F64.beq, score05]

/-! ## the threshold filter -/

theorem passRecord_ne_failRecord (o : Output) : passRecord o ≠ failRecord o := by
  intro h
  have h2 := congrArg String.data h
  simp [passRecord, failRecord, String.data_append] at h2

theorem FilterAndMoveOutput_eq (s : scorer) (o : Output) (w : List Effect) :
    FilterAndMoveOutput s o w =
      if F64.gt o.TopScore s.threshold = true then
        (passRecord o, w ++ [Effect.mv (s.allFrames ++ "/" ++ o.Filename) (s.goodFrames ++ "/."),
          Effect.soundFrame o.Filename])
      else (failRecord o, w) := by
  unfold FilterAndMoveOutput moveFile CreateSoundFrame
  split <;> simp

theorem FilterAndMoveOutput_fst (s : scorer) (o : Output) (w w2 : List Effect) :
    (FilterAndMoveOutput s o w).1 = (FilterAndMoveOutput s o w2).1 := by
  simp only [FilterAndMoveOutput_eq]
  split <;> rfl

/-- C1: `FilterAndMoveOutput` of a scorer built by `NewScorer` with threshold `t`
returns the PASSED record exactly when `o.TopScore > t` and the failed record exactly
when not; a score equal to the threshold gives the failed record. -/
theorem FilterAndMoveOutput_pass_iff_gt (allFrames goodFrames : String) (t : F64)
    (o : Output) (w : List Effect) :
    ((FilterAndMoveOutput (NewScorer allFrames goodFrames t) o w).1 = passRecord o
        ↔ F64.gt o.TopScore t = true) ∧
    ((FilterAndMoveOutput (NewScorer allFrames goodFrames t) o w).1 = failRecord o
        ↔ F64.gt o.TopScore t = false) ∧
    (F64.beq o.TopScore t = true →
      (FilterAndMoveOutput (NewScorer allFrames goodFrames t) o w).1 = failRecord o) := by
  have hne := passRecord_ne_failRecord o
  simp only [FilterAndMoveOutput_eq, NewScorer]
  refine ⟨?_, ?_, ?_⟩
  · by_cases h : F64.gt o.TopScore t = true
    · simp [h]
    · simp [h, Ne.symm hne]
  · by_cases h : F64.gt o.TopScore t = true
    · simp [h, hne]
    · simp [h]
  · intro h
    simp [F64.not_gt_of_beq _ _ h]

theorem FilterAndMoveOutput_pass_iff_gt_witness :
    F64.beq score05 score05 = true ∧
    (FilterAndMoveOutput (NewScorer "all" "good" score05) ⟨"b", score05, "dog"⟩ []).1
      = failRecord ⟨"b", score05, "dog"⟩ :=
  ⟨beq_05_05,
    (FilterAndMoveOutput_pass_iff_gt "all" "good" score05 ⟨"b", score05, "dog"⟩ []).2.2
      beq_05_05⟩

/-! ## ScoreFrame -/

theorem scenario_a :
    ScoreFrame scenarioEnv "http://localhost:5000/predict" ⟨"a", "all", "good"⟩
      = .ok ⟨"a", score09, "cat"⟩ := by
  simp [scenarioEnv, ScoreFrame, UploadImage]

theorem scenario_b :
    ScoreFrame scenarioEnv "http://localhost:5000/predict" ⟨"b", "all", "good"⟩
      = .ok ⟨"b", score05, "dog"⟩ := by
  simp [scenarioEnv, ScoreFrame, UploadImage]

theorem scenario_c :
    ScoreFrame scenarioEnv "http://localhost:5000/predict" ⟨"c", "all", "good"⟩
      = .ok ⟨"c", score02, "car"⟩ := by
  simp [scenarioEnv, ScoreFrame, UploadImage]

theorem failing_a :
    ScoreFrame failingEnv "http://localhost:5000/predict" ⟨"a", "all", "good"⟩
      = .ok ⟨"a", score09, "cat"⟩ := by
  simp [failingEnv, scenarioEnv, ScoreFrame, UploadImage]

theorem failing_b :
    ScoreFrame failingEnv "http://localhost:5000/predict" ⟨"b", "all", "good"⟩
      = .ok ⟨"b", score05, "dog"⟩ := by
  simp [failingEnv, scenarioEnv, ScoreFrame, UploadImage]

theorem failing_c :
    ScoreFrame failingEnv "http://localhost:5000/predict" ⟨"c", "all", "good"⟩
      = .error (.fatal "Unable to Send: 500 Internal Server Error") := by
  simp [failingEnv, scenarioEnv, ScoreFrame, UploadImage]

theorem ScoreFrame_of_response (env : Env) (link : String) (m : MovieFrame) (code : ℕ)
    (status : String) (body : Bytes)
    (hopen : env.openFile (m.AllFramesPath ++ "/" ++ m.Filename) = true)
    (hpost : env.post link (m.AllFramesPath ++ "/" ++ m.Filename)
      = .response code status body) :
    ScoreFrame env link m =
      if code ≠ 200 then .error (.fatal ("Unable to Send: " ++ status))
      else match (env.unmarshal body).Labels with
        | [] => .error (.panic "index out of range [0] with length 0")
        | l :: _ =>
          .ok { Filename := m.Filename, TopScore := l.Probability, PredictedObject := l.Label } := by
  unfold ScoreFrame UploadImage
  simp only [hopen, if_true, hpost]
  by_cases h : code = 200
  · simp [h]
  · simp [h]

/-! ## scoreSequential -/

theorem seqLoop_cons_ok (c : Config) (sc : scorer) (i : String) (rest : List String)
    (tr : Trace) (o : Output) (h : ScoreFrame c.env c.uploadLink (mkFrame c i) = .ok o) :
    seqLoop c sc (i :: rest) tr = seqLoop c sc rest
      { effects := (FilterAndMoveOutput sc o tr.effects).2
        results := tr.results ++ [(FilterAndMoveOutput sc o tr.effects).1]
        logged := if c.logScores then tr.logged ++ [(FilterAndMoveOutput sc o tr.effects).1]
          else tr.logged } := by
  simp [seqLoop, h]

theorem seqLoop_cons_error (c : Config) (sc : scorer) (i : String) (rest : List String)
    (tr : Trace) (e : Abort) (h : ScoreFrame c.env c.uploadLink (mkFrame c i) = .error e) :
    seqLoop c sc (i :: rest) tr = (some e, tr) := by
  simp [seqLoop, h]

/-- Over a run of files that all score, the loop continues with the remaining files
after recording one result per file, in order. -/
theorem seqLoop_append_ok (c : Config) (sc : scorer) (f : String → Output)
    (pre rest : List String)
    (hpre : ∀ x ∈ pre, ScoreFrame c.env c.uploadLink (mkFrame c x) = .ok (f x)) (tr : Trace) :
    ∃ tr2 : Trace, seqLoop c sc (pre ++ rest) tr = seqLoop c sc rest tr2 ∧
      tr2.results = tr.results ++ pre.map fun x => (FilterAndMoveOutput sc (f x) []).1 := by
  induction pre generalizing tr with
  | nil => exact ⟨tr, rfl, by simp⟩
  | cons x xs ih =>
    have hx := hpre x (List.mem_cons_self _ _)
    obtain ⟨tr2, h1, h2⟩ := ih (fun y hy => hpre y (List.mem_cons_of_mem _ hy))
      { effects := (FilterAndMoveOutput sc (f x) tr.effects).2
        results := tr.results ++ [(FilterAndMoveOutput sc (f x) tr.effects).1]
        logged := if c.logScores then tr.logged ++ [(FilterAndMoveOutput sc (f x) tr.effects).1]
          else tr.logged }
    refine ⟨tr2, ?_, ?_⟩
    · rw [List.cons_append, seqLoop_cons_ok c sc x _ tr (f x) hx, h1]
    · rw [h2, List.map_cons, FilterAndMoveOutput_fst sc (f x) tr.effects []]
      simp

/-- C2: one call of `FilterAndMoveOutput` issues the good-frame commands (the `mv` of
the frame from `allFrames` to `goodFrames`, then `CreateSoundFrame` of its name) once
when `o.TopScore > threshold` and issues nothing otherwise; at threshold 0.5 the frames
`a` (0.9), `b` (0.5), `c` (0.2) give PASSED, failed, failed and the commands of `a` only. -/
theorem FilterAndMoveOutput_good_frame_effect (allFrames goodFrames : String) (t : F64)
    (o : Output) (w : List Effect) :
    (FilterAndMoveOutput (NewScorer allFrames goodFrames t) o w).2 =
      (if F64.gt o.TopScore t = true then
        w ++ [Effect.mv (allFrames ++ "/" ++ o.Filename) (goodFrames ++ "/."),
          Effect.soundFrame o.Filename]
       else w) ∧
    scoreSequential scenarioConfig ["a", "b", "c"] =
      (none,
        { effects := [Effect.mv "all/a" "good/.", Effect.soundFrame "a"]
          results := [passRecord ⟨"a", score09, "cat"⟩, failRecord ⟨"b", score05, "dog"⟩,
            failRecord ⟨"c", score02, "car"⟩]
          logged := [passRecord ⟨"a", score09, "cat"⟩, failRecord ⟨"b", score05, "dog"⟩,
            failRecord ⟨"c", score02, "car"⟩] }) := by
  constructor
  · simp only [FilterAndMoveOutput_eq, NewScorer]
    split <;> rfl
  · unfold scoreSequential
    rw [seqLoop_cons_ok _ _ _ _ _ _ scenario_a, seqLoop_cons_ok _ _ _ _ _ _ scenario_b,
      seqLoop_cons_ok _ _ _ _ _ _ scenario_c]
    simp [seqLoop, FilterAndMoveOutput_eq, NewScorer, scenarioConfig, gt_09_05, gt_05_05,
      gt_02_05]

/-- C3, as stated, fails: when the server answers the upload of the third of five frames
with status 500, `ScoreFrame` returns no `Output` (so none with `TopScore` 0) but stops
the program, and `scoreSequential` reports the first two frames only. -/
theorem ScoreFrame_failure_not_scored_zero :
    ScoreFrame failingConfig.env failingConfig.uploadLink (mkFrame failingConfig "c")
      = .error (.fatal "Unable to Send: 500 Internal Server Error") ∧
    (¬ ∃ o : Output,
      ScoreFrame failingConfig.env failingConfig.uploadLink (mkFrame failingConfig "c") = .ok o
        ∧ o.TopScore = .fin 0) ∧
    scoreSequential failingConfig ["a", "b", "c", "d", "e"] =
      (some (.fatal "Unable to Send: 500 Internal Server Error"),
        { effects := [Effect.mv "all/a" "good/.", Effect.soundFrame "a"]
          results := [passRecord ⟨"a", score09, "cat"⟩, failRecord ⟨"b", score05, "dog"⟩]
          logged := [passRecord ⟨"a", score09, "cat"⟩, failRecord ⟨"b", score05, "dog"⟩] }) := by
  have hc : ScoreFrame failingConfig.env failingConfig.uploadLink (mkFrame failingConfig "c")
      = .error (.fatal "Unable to Send: 500 Internal Server Error") := failing_c
  refine ⟨hc, ?_, ?_⟩
  · rintro ⟨o, ho, -⟩
    rw [hc] at ho
    cases ho
  · unfold scoreSequential
    rw [seqLoop_cons_ok _ _ _ _ _ _ failing_a, seqLoop_cons_ok _ _ _ _ _ _ failing_b,
      seqLoop_cons_error _ _ _ _ _ _ failing_c]
    simp [FilterAndMoveOutput_eq, NewScorer, failingConfig, scenarioConfig, gt_09_05, gt_05_05]

/-- C3, amended: when the server answers the upload of a frame with a status other than
200, `ScoreFrame` returns no `Output` for it: `UploadImage` stops the program with
`log.Fatalf("Unable to Send: ...")`, and `scoreSequential` has then reported exactly the
frames before it, each with its real score, and none after it. -/
theorem ScoreFrame_non200_is_fatal (c : Config) (f : String → Output)
    (pre post : List String) (x : String) (code : ℕ) (status : String) (body : Bytes)
    (hpre : ∀ y ∈ pre, ScoreFrame c.env c.uploadLink (mkFrame c y) = .ok (f y))
    (hopen : c.env.openFile (c.allFrames ++ "/" ++ x) = true)
    (hpost : c.env.post c.uploadLink (c.allFrames ++ "/" ++ x) = .response code status body)
    (hcode : code ≠ 200) :
    ScoreFrame c.env c.uploadLink (mkFrame c x) = .error (.fatal ("Unable to Send: " ++ status)) ∧
    (scoreSequential c (pre ++ x :: post)).1 = some (.fatal ("Unable to Send: " ++ status)) ∧
    (scoreSequential c (pre ++ x :: post)).2.results =
      pre.map fun y =>
        (FilterAndMoveOutput (NewScorer c.allFrames c.goodFrames c.threshold) (f y) []).1 := by
  have hx : ScoreFrame c.env c.uploadLink (mkFrame c x)
      = .error (.fatal ("Unable to Send: " ++ status)) := by
    rw [ScoreFrame_of_response c.env c.uploadLink (mkFrame c x) code status body hopen hpost]
    simp [hcode]
  obtain ⟨tr2, h1, h2⟩ := seqLoop_append_ok c (NewScorer c.allFrames c.goodFrames c.threshold)
    f pre (x :: post) hpre { effects := [], results := [], logged := [] }
  refine ⟨hx, ?_, ?_⟩
  · unfold scoreSequential
    rw [h1, seqLoop_cons_error _ _ _ _ _ _ hx]
  · unfold scoreSequential
    rw [h1, seqLoop_cons_error _ _ _ _ _ _ hx]
    simpa using h2

theorem ScoreFrame_non200_is_fatal_witness :
    (scoreSequential failingConfig (["a", "b"] ++ "c" :: ["d", "e"])).2.results =
      ["a", "b"].map fun y =>
        (FilterAndMoveOutput (NewScorer "all" "good" score05)
          ((fun n => if n = "a" then ⟨"a", score09, "cat"⟩ else ⟨"b", score05, "dog"⟩) y) []).1 :=
  (ScoreFrame_non200_is_fatal failingConfig
    (fun n => if n = "a" then ⟨"a", score09, "cat"⟩ else ⟨"b", score05, "dog"⟩)
    ["a", "b"] ["d", "e"] "c" 500 "500 Internal Server Error" []
    (by
      intro y hy
      simp only [List.mem_cons, List.mem_singleton, List.not_mem_nil, or_false] at hy
      rcases hy with rfl | rfl
      · exact failing_a
      · exact failing_b)
    (by simp [failingConfig, failingEnv, scenarioConfig, scenarioEnv])
    (by simp [failingConfig, failingEnv, scenarioConfig])
    (by decide)).2.2

/-- C10: when the upload of frame `m` is answered with status 200 and a body that
decodes to a label list `l :: rest`, `ScoreFrame` returns the `Output` with the file
name of `m` and the probability and label of `l`, whatever `rest` is. -/
theorem ScoreFrame_takes_first_label (env : Env) (link : String) (m : MovieFrame)
    (status : String) (body : Bytes) (l : Line) (rest : List Line)
    (hopen : env.openFile (m.AllFramesPath ++ "/" ++ m.Filename) = true)
    (hpost : env.post link (m.AllFramesPath ++ "/" ++ m.Filename) = .response 200 status body)
    (hlabels : (env.unmarshal body).Labels = l :: rest) :
    ScoreFrame env link m =
      .ok { Filename := m.Filename, TopScore := l.Probability, PredictedObject := l.Label } := by
  rw [ScoreFrame_of_response env link m 200 status body hopen hpost]
  simp [hlabels]

theorem ScoreFrame_takes_first_label_witness :
    ScoreFrame scenarioEnv "http://localhost:5000/predict" ⟨"b", "all", "good"⟩ =
      .ok { Filename := "b", TopScore := score05, PredictedObject := "dog" } :=
  ScoreFrame_takes_first_label scenarioEnv "http://localhost:5000/predict" ⟨"b", "all", "good"⟩
    "200 OK" [98] ⟨"dog", score05⟩ [⟨"cat", score09⟩]
    (by simp [scenarioEnv]) (by simp [scenarioEnv]) (by simp [scenarioEnv])

/-- C4, at the failing input: with `-threads 0` (and a movie and a link) `parseParams`
does not exit but returns worker count 0, `main` then enters `scoreParallel` with
`threadCount = 0`, and that run ends without a single record for three frames. -/
theorem parseParams_accepts_zero_threads :
    parseParams zeroThreadFlags =
      .ok (0, 1, score02, false, "movie.mp4", "http://localhost:5000/predict") ∧
    mainMode zeroThreadFlags = .ok (Mode.parallel 0) ∧
    ∃ s, scoreParallel scenarioConfig ["a", "b", "c"] 0
        [Action.closeAggregate, Action.filterEnd, Action.mainEnd] = some s ∧
      s.mainDone = true ∧ s.received = [] := by
  refine ⟨?_, ?_, ?_⟩
  · simp [parseParams, zeroThreadFlags]
  · simp [mainMode, parseParams, zeroThreadFlags]
  · simp [scoreParallel, run, step, Pipeline.init]

/-! ## the pipeline: one step -/

theorem sum_map_set {α M : Type} [AddCommMonoid M] (f : α → M) (l : List α) (i : ℕ) (a x : α)
    (h : l[i]? = some a) : ((l.set i x).map f).sum + f a = (l.map f).sum + f x := by
  induction l generalizing i with
  | nil => simp at h
  | cons b bs ih =>
    cases i with
    | zero =>
      simp at h
      subst h
      simp [add_comm, add_left_comm]
    | succ j =>
      simp at h
      have := ih j h
      simp only [List.set_cons_succ, List.map_cons, List.sum_cons, add_assoc, this]

theorem le_sum_map_of_get {α : Type} (f : α → ℕ) (l : List α) (i : ℕ) (a : α)
    (h : l[i]? = some a) : f a ≤ (l.map f).sum := by
  have hm : a ∈ l := List.getElem?_mem h
  exact List.single_le_sum (by simp) _ (List.mem_map_of_mem f hm)

theorem sum_map_set_nat {α : Type} (f : α → ℕ) (l : List α) (i : ℕ) (a x : α)
    (h : l[i]? = some a) : ((l.set i x).map f).sum = (l.map f).sum + f x - f a := by
  have := sum_map_set f l i a x h
  omega

/-- Every step uses up potential: no schedule is longer than the potential of its
first state. -/
theorem step_potential (c : Config) (a : Action) (s t : Pipeline) (h : step c a s = some t) :
    t.potential < s.potential := by
  unfold step at h
  split at h
  · simp at h
  · rename_i hc
    simp only [ne_eq, not_not] at hc
    cases a <;> simp only at h <;> (repeat' (split at h)) <;>
      (first | (simp at h; done) | skip) <;>
      (simp only [Option.some.injEq] at h; subst h) <;>
      simp only [Pipeline.potential] <;>
      (try rw [sum_map_set_nat _ _ _ _ _ ‹_ = some _›]) <;>
      (try have hle := le_sum_map_of_get (fun ln : Lane => ln.worker.cost 3 + ln.relay.cost 2)
              _ _ _ ‹_ = some _›) <;>
      simp_all [Stg.cost] <;>
      omega

/-- The channel `done` is closed by no step but the return of `scoreParallel`. -/
theorem step_done_false (c : Config) (a : Action) (s t : Pipeline) (h : step c a s = some t)
    (hd : t.done = false) : s.done = false ∧ t.mainDone = s.mainDone := by
  unfold step at h
  split at h
  · simp at h
  · cases a <;> simp only at h <;> (repeat' (split at h)) <;>
      (first | (simp at h; done) | skip) <;>
      (simp only [Option.some.injEq] at h; subst h) <;>
      simp_all

theorem step_closedInOrder (c : Config) (a : Action) (s t : Pipeline)
    (h : step c a s = some t) (hd : t.done = false) (hs : s.closedInOrder) :
    t.closedInOrder := by
  obtain ⟨h1, h2, h3, h4, h5, h6⟩ := hs
  unfold step at h
  split at h
  · simp at h
  · cases a <;> simp only at h <;> (repeat' (split at h)) <;>
      (first | (simp at h; done) | skip) <;>
      (simp only [Option.some.injEq] at h; subst h) <;>
      (try have hmem := List.getElem?_mem ‹_ = some _›) <;>
      simp only [Pipeline.closedInOrder] <;>
      refine ⟨?_, ?_, ?_, ?_, ?_, ?_⟩ <;>
      (try (intro hx ln2 hln2; rcases List.mem_or_eq_of_mem_set hln2 with hm | rfl)) <;>
      (try (intro ln2 hln2 hx; rcases List.mem_or_eq_of_mem_set hln2 with hm | rfl)) <;>
      first
      | assumption
      | exact h3 _ hm hx
      | exact h4 _ hm hx
      | exact h5 hx _ hm
      | (refine h3 _ hmem ?_; simp_all; done)
      | simp_all

theorem step_framesInOrder (c : Config) (files : List String) (a : Action) (s t : Pipeline)
    (h : step c a s = some t) (hd : t.done = false) (hs : s.framesInOrder c files) :
    t.framesInOrder c files := by
  unfold step at h
  split at h
  · simp at h
  · cases a <;> simp only at h <;> (repeat' (split at h)) <;>
      (first | (simp at h; done) | skip) <;>
      (simp only [Option.some.injEq] at h; subst h) <;>
      simp_all [Pipeline.framesInOrder, Stg.held]

theorem outcome_eq (c : Config) (o : Output) (w : List Effect) :
    (FilterAndMoveOutput (NewScorer c.allFrames c.goodFrames c.threshold) o w).1 = outcome c o :=
  FilterAndMoveOutput_fst _ _ _ _

theorem sum_map_split {α M : Type} [AddCommMonoid M] (f : α → M) (l : List α) (i : ℕ) (a : α)
    (h : l[i]? = some a) :
    ∃ r : M, (l.map f).sum = r + f a ∧ ∀ x, ((l.set i x).map f).sum = r + f x := by
  induction l generalizing i with
  | nil => simp at h
  | cons b bs ih =>
    cases i with
    | zero =>
      simp at h
      subst h
      exact ⟨(bs.map f).sum, by simp [add_comm], fun x => by simp [add_comm]⟩
    | succ j =>
      simp at h
      obtain ⟨r, h1, h2⟩ := ih j h
      refine ⟨f b + r, ?_, fun x => ?_⟩
      · simp [h1, add_assoc]
      · simp only [List.set_cons_succ, List.map_cons, List.sum_cons, h2, add_assoc]

theorem coe_cons_add (a : String) (l : List String) :
    (↑(a :: l) : Multiset String) = {a} + ↑l := by
  rw [← Multiset.cons_coe, Multiset.singleton_add]

theorem coe_append_singleton (a : String) (l : List String) :
    (↑(l ++ [a]) : Multiset String) = ↑l + {a} := by
  rw [← Multiset.coe_add]
  rfl

theorem step_records (c : Config) (a : Action) (s t : Pipeline)
    (h : step c a s = some t) (hd : t.done = false) (hc : t.crashed = none) :
    t.records c = s.records c := by
  unfold step at h
  split at h
  · simp at h
  · cases a <;> simp only at h <;> (repeat' (split at h)) <;>
      (first | (simp at h; done) | skip) <;>
      (simp only [Option.some.injEq] at h; subst h) <;>
      simp only [Pipeline.records] <;>
      (first | (simp_all [Stg.held]; done) | skip) <;>
      (try (obtain ⟨r, hr, hset⟩ := sum_map_split (Lane.records c) _ _ _ ‹_ = some _›
            rw [hset, hr])) <;>
      simp_all only [Lane.records, Stg.held, List.map_cons, List.map_nil, coe_cons_add,
        coe_append_singleton, Multiset.coe_nil, recordOf, outcome_eq, add_zero, zero_add] <;>
      (try abel)

/-- A state in which every goroutine has returned admits no further step. -/
theorem step_none_of_allExited (c : Config) (a : Action) (s : Pipeline)
    (he : s.allExited) (hm : s.mainDone = true) : step c a s = none := by
  obtain ⟨h1, h2, h3, h4, h5⟩ := he
  cases hst : step c a s with
  | none => rfl
  | some t =>
    exfalso
    unfold step at hst
    split at hst
    · simp at hst
    · cases a <;> simp only at hst <;> (repeat' (split at hst)) <;>
        (first | (simp at hst; done) | skip) <;>
        (try have hmem := h3 _ (List.getElem?_mem ‹_ = some _›)) <;>
        simp_all

/-- Some lane whose relay has not exited, when not all have. -/
theorem exists_lane_of_not_all (l : List Lane) (P : Lane → Prop)
    (h : ¬ ∀ ln ∈ l, P ln) : ∃ (i : ℕ) (ln : Lane), l[i]? = some ln ∧ ¬ P ln := by
  push_neg at h
  obtain ⟨ln, hmem, hP⟩ := h
  obtain ⟨i, hi⟩ := List.mem_iff_getElem?.mp hmem
  exact ⟨i, ln, hi, hP⟩

/-- Without cancellation the pipeline never blocks: as long as the loop of
`scoreParallel` has not ended, some goroutine can move. -/
theorem step_progress (c : Config) (s : Pipeline) (hc : s.crashed = none)
    (hm : s.mainDone = false) : ∃ a, (step c a s).isSome = true := by
  cases hf : s.filter with
  | exited => exact ⟨.mainEnd, by simp [step, hc, hf, hm]⟩
  | send m => exact ⟨.recvMoved, by simp [step, hc, hf, hm]⟩
  | recv =>
    by_cases hagg : s.aggClosed = true
    · exact ⟨.filterEnd, by simp [step, hc, hf, hagg]⟩
    by_cases hall : ∀ ln ∈ s.lanes, ln.relay = .exited
    · exact ⟨.closeAggregate, by simpa [step, hc, hagg] using hall⟩
    obtain ⟨i, ln, hi, hrel⟩ := exists_lane_of_not_all _ _ hall
    cases hr : ln.relay with
    | exited => exact absurd hr hrel
    | send o => exact ⟨.sendAggregate i, by simp [step, hc, hi, hr, hf]⟩
    | recv =>
      cases hw : ln.worker with
      | send o => exact ⟨.sendOutput i, by simp [step, hc, hi, hr, hw]⟩
      | exited => exact ⟨.relayEnd i, by simp [step, hc, hi, hr, hw]⟩
      | recv =>
        cases hg : s.gather with
        | send v =>
          refine ⟨.sendFrame i, ?_⟩
          cases hsc : ScoreFrame c.env c.uploadLink v <;> simp [step, hc, hi, hw, hg, hsc]
        | exited => exact ⟨.workerEnd i, by simp [step, hc, hi, hw, hg]⟩
        | recv =>
          by_cases hn : s.namesClosed = true
          · exact ⟨.gatherEnd, by simp [step, hc, hg, hn]⟩
          cases hnames : s.names with
          | nil => exact ⟨.closeNames, by simpa [step, hc, hnames] using hn⟩
          | cons f rest => exact ⟨.sendName, by simpa [step, hc, hnames, hg] using hn⟩

/-- Once `done` is closed, some goroutine can move as long as not all have returned. -/
theorem step_progress_cancelled (c : Config) (s : Pipeline) (hc : s.crashed = none)
    (hd : s.done = true) (hne : ¬ (s.allExited ∧ s.mainDone = true)) :
    ∃ a, (step c a s).isSome = true := by
  by_cases hn : s.namesClosed = true
  swap
  · cases hnames : s.names with
    | nil => exact ⟨.closeNames, by simpa [step, hc, hnames] using hn⟩
    | cons f rest => exact ⟨.cancelNames, by simpa [step, hc, hnames, hd] using hn⟩
  cases hg : s.gather with
  | recv => exact ⟨.gatherEnd, by simp [step, hc, hg, hn]⟩
  | send v => exact ⟨.cancelGather, by simp [step, hc, hg, hd]⟩
  | exited =>
    by_cases hall : ∀ ln ∈ s.lanes, ln.worker = .exited ∧ ln.relay = .exited
    swap
    · obtain ⟨i, ln, hi, hrel⟩ := exists_lane_of_not_all _ _ hall
      cases hw : ln.worker with
      | recv => exact ⟨.workerEnd i, by simp [step, hc, hi, hw, hg]⟩
      | send o => exact ⟨.cancelWorker i, by simp [step, hc, hi, hw, hd]⟩
      | exited =>
        cases hr : ln.relay with
        | recv => exact ⟨.relayEnd i, by simp [step, hc, hi, hr, hw]⟩
        | send o => exact ⟨.cancelRelay i, by simp [step, hc, hi, hr, hd]⟩
        | exited => exact absurd ⟨hw, hr⟩ hrel
    by_cases hagg : s.aggClosed = true
    swap
    · exact ⟨.closeAggregate, by
        simp only [step, hc, ne_eq, not_true_eq_false, if_false]
        simp [hagg]
        intro ln hln
        exact (hall ln hln).2⟩
    cases hf : s.filter with
    | recv => exact ⟨.filterEnd, by simp [step, hc, hf, hagg]⟩
    | send m => exact ⟨.cancelFilter, by simp [step, hc, hf, hd]⟩
    | exited =>
      by_cases hm : s.mainDone = true
      · exact absurd ⟨⟨hn, hg, hall, hagg, hf⟩, hm⟩ hne
      · exact ⟨.mainEnd, by simpa [step, hc, hf] using hm⟩

/-! ## the pipeline: schedules -/

theorem step_lanes_length (c : Config) (a : Action) (s t : Pipeline)
    (h : step c a s = some t) : t.lanes.length = s.lanes.length := by
  unfold step at h
  split at h
  · simp at h
  · cases a <;> simp only at h <;> (repeat' (split at h)) <;>
      (first | (simp at h; done) | skip) <;>
      (simp only [Option.some.injEq] at h; subst h) <;>
      simp

theorem step_done_true (c : Config) (a : Action) (s t : Pipeline)
    (h : step c a s = some t) (hd : s.done = true) : t.done = true := by
  unfold step at h
  split at h
  · simp at h
  · cases a <;> simp only at h <;> (repeat' (split at h)) <;>
      (first | (simp at h; done) | skip) <;>
      (simp only [Option.some.injEq] at h; subst h) <;>
      simp_all

/-- The process stops only when `ScoreFrame` aborts on the frame a worker receives. -/
theorem step_crashed (c : Config) (a : Action) (s t : Pipeline)
    (h : step c a s = some t)
    (hv : ∀ v ∈ s.gather.held, ∃ o, ScoreFrame c.env c.uploadLink v = .ok o) :
    t.crashed = none := by
  unfold step at h
  split at h
  · simp at h
  · cases a <;> simp only at h <;> (repeat' (split at h)) <;>
      (first | (simp at h; done) | skip) <;>
      (simp only [Option.some.injEq] at h; subst h) <;>
      simp_all [Stg.held]

/-- The step that closes `done` is the return of `scoreParallel`. -/
theorem step_closes_done (c : Config) (a : Action) (s t : Pipeline)
    (h : step c a s = some t) (hs : s.done = false) (hd : t.done = true) :
    s.filter = .exited ∧ t = { s with mainDone := true, done := true } := by
  unfold step at h
  split at h
  · simp at h
  · cases a <;> simp only at h <;> (repeat' (split at h)) <;>
      (first | (simp at h; done) | skip) <;>
      (simp only [Option.some.injEq] at h; subst h) <;>
      simp_all

theorem run_cons (c : Config) (s : Pipeline) (a : Action) (as : List Action) :
    run c s (a :: as) = (step c a s).bind fun t => run c t as := by
  cases h : step c a s <;> simp [run, h]

theorem run_done_false (c : Config) (sched : List Action) (s t : Pipeline)
    (h : run c s sched = some t) (hd : t.done = false) : s.done = false := by
  induction sched generalizing s with
  | nil =>
    simp only [run, Option.some.injEq] at h
    subst h
    exact hd
  | cons a as ih =>
    rw [run_cons] at h
    cases hst : step c a s with
    | none => simp [hst] at h
    | some u =>
      simp only [hst, Option.some_bind] at h
      exact (step_done_false c a s u hst (ih u h)).1

theorem run_done_true (c : Config) (sched : List Action) (s t : Pipeline)
    (h : run c s sched = some t) (hd : s.done = true) : t.done = true := by
  induction sched generalizing s with
  | nil =>
    simp only [run, Option.some.injEq] at h
    subst h
    exact hd
  | cons a as ih =>
    rw [run_cons] at h
    cases hst : step c a s with
    | none => simp [hst] at h
    | some u =>
      simp only [hst, Option.some_bind] at h
      exact ih u h (step_done_true c a s u hst hd)

/-- A schedule is no longer than the potential it uses up. -/
theorem run_potential (c : Config) (sched : List Action) (s t : Pipeline)
    (h : run c s sched = some t) : sched.length + t.potential ≤ s.potential := by
  induction sched generalizing s with
  | nil =>
    simp only [run, Option.some.injEq] at h
    subst h
    simp
  | cons a as ih =>
    rw [run_cons] at h
    cases hst : step c a s with
    | none => simp [hst] at h
    | some u =>
      simp only [hst, Option.some_bind] at h
      have h1 := ih u h
      have h2 := step_potential c a s u hst
      simp only [List.length_cons]
      omega

/-- Until `done` is closed, channels are closed in order and `intStream` carries the
frames of the files in order. -/
theorem run_ordered (c : Config) (files : List String) (sched : List Action) (s t : Pipeline)
    (h : run c s sched = some t) (hd : t.done = false)
    (hs : s.closedInOrder ∧ s.framesInOrder c files) :
    t.closedInOrder ∧ t.framesInOrder c files := by
  induction sched generalizing s with
  | nil =>
    simp only [run, Option.some.injEq] at h
    subst h
    exact hs
  | cons a as ih =>
    rw [run_cons] at h
    cases hst : step c a s with
    | none => simp [hst] at h
    | some u =>
      simp only [hst, Option.some_bind] at h
      have hu : u.done = false := run_done_false c as u t h hd
      exact ih u h ⟨step_closedInOrder c a s u hst hu hs.1,
        step_framesInOrder c files a s u hst hu hs.2⟩

theorem init_closedInOrder (files : List String) (n : ℕ) :
    (Pipeline.init files n).closedInOrder := by
  simp [Pipeline.closedInOrder, Pipeline.init, List.mem_replicate]

theorem init_framesInOrder (c : Config) (files : List String) (n : ℕ) :
    (Pipeline.init files n).framesInOrder c files := by
  simp [Pipeline.framesInOrder, Pipeline.init, Stg.held]

theorem init_potential (files : List String) (n : ℕ) :
    (Pipeline.init files n).potential = 5 * files.length + 2 * n + 6 := by
  simp [Pipeline.potential, Pipeline.init, Stg.cost]
  omega

theorem init_records (c : Config) (files : List String) (n : ℕ) :
    (Pipeline.init files n).records c = targetRecords c files := by
  simp [Pipeline.records, Pipeline.init, Stg.held, targetRecords, Lane.records]

theorem held_scores (c : Config) (files : List String) (s : Pipeline)
    (hok : ∀ x ∈ files, ∃ o, ScoreFrame c.env c.uploadLink (mkFrame c x) = .ok o)
    (hs : s.framesInOrder c files) :
    ∀ v ∈ s.gather.held, ∃ o, ScoreFrame c.env c.uploadLink v = .ok o := by
  intro v hv
  have hmem : v ∈ files.map (mkFrame c) := by
    rw [← hs]
    simp [hv]
  obtain ⟨x, hx, rfl⟩ := List.mem_map.mp hmem
  exact hok x hx

/-- When `scoreParallel` returns with a worker in the pool, every goroutine has exited
and every record has been received. -/
theorem sound_of_return (c : Config) (files : List String) (s : Pipeline)
    (hl : s.lanes ≠ []) (hf : s.filter = .exited) (hco : s.closedInOrder)
    (hfo : s.framesInOrder c files) (hr : s.records c = targetRecords c files) :
    s.allExited ∧ s.framesLog = files.map (mkFrame c) ∧
      (↑s.received : Multiset String) = targetRecords c files := by
  obtain ⟨h1, h2, h3, h4, h5, h6⟩ := hco
  have hagg := h6 hf
  have hrel := h5 hagg
  have hwork : ∀ ln ∈ s.lanes, ln.worker = .exited := fun ln hln => h4 ln hln (hrel ln hln)
  obtain ⟨ln, hln⟩ := List.exists_mem_of_ne_nil _ hl
  have hg := h3 ln hln (hwork ln hln)
  have hn := h2 hg
  have hnames := h1 hn
  refine ⟨⟨hn, hg, fun ln hln => ⟨hwork ln hln, hrel ln hln⟩, hagg, hf⟩, ?_, ?_⟩
  · simpa [Pipeline.framesInOrder, hg, hnames, Stg.held] using hfo
  · have hz : (s.lanes.map (Lane.records c)).sum = 0 := by
      apply List.sum_eq_zero
      intro m hm
      obtain ⟨ln, hln, rfl⟩ := List.mem_map.mp hm
      simp [Lane.records, hwork ln hln, hrel ln hln, Stg.held]
    rw [← hr]
    simp [Pipeline.records, hnames, hg, hf, hz, Stg.held]

theorem step_sound (c : Config) (files : List String) (a : Action) (s t : Pipeline)
    (hok : ∀ x ∈ files, ∃ o, ScoreFrame c.env c.uploadLink (mkFrame c x) = .ok o)
    (h : step c a s = some t) (hs : s.sound c files) : t.sound c files := by
  obtain ⟨hl, hc, hcase⟩ := hs
  rcases hcase with ⟨hd, hm, hco, hfo, hr⟩ | ⟨he, hm, -, -⟩
  · have hl2 : t.lanes ≠ [] := by
      intro h0
      have := step_lanes_length c a s t h
      rw [h0] at this
      exact hl (List.length_eq_zero.mp this.symm)
    have hc2 : t.crashed = none := step_crashed c a s t h (held_scores c files s hok hfo)
    refine ⟨hl2, hc2, ?_⟩
    cases htd : t.done with
    | false =>
      left
      refine ⟨rfl, ?_, step_closedInOrder c a s t h htd hco,
        step_framesInOrder c files a s t h htd hfo, ?_⟩
      · rw [(step_done_false c a s t h htd).2, hm]
      · rw [step_records c a s t h htd hc2, hr]
    | true =>
      right
      obtain ⟨hf, rfl⟩ := step_closes_done c a s t h hd htd
      obtain ⟨h1, h2, h3⟩ := sound_of_return c files s hl hf hco hfo hr
      exact ⟨h1, rfl, h2, h3⟩
  · rw [step_none_of_allExited c a s he hm] at h
    cases h

theorem run_sound (c : Config) (files : List String) (sched : List Action) (s t : Pipeline)
    (hok : ∀ x ∈ files, ∃ o, ScoreFrame c.env c.uploadLink (mkFrame c x) = .ok o)
    (h : run c s sched = some t) (hs : s.sound c files) : t.sound c files := by
  induction sched generalizing s with
  | nil =>
    simp only [run, Option.some.injEq] at h
    subst h
    exact hs
  | cons a as ih =>
    rw [run_cons] at h
    cases hst : step c a s with
    | none => simp [hst] at h
    | some u =>
      simp only [hst, Option.some_bind] at h
      exact ih u h (step_sound c files a s u hok hst hs)

theorem init_sound (c : Config) (files : List String) (n : ℕ) (hn : 1 ≤ n) :
    (Pipeline.init files n).sound c files := by
  refine ⟨?_, rfl, Or.inl ⟨rfl, rfl, init_closedInOrder files n, init_framesInOrder c files n,
    init_records c files n⟩⟩
  intro h0
  have := congrArg List.length h0
  simp [Pipeline.init] at this
  omega

/-- From a sound state some schedule leads to the return of `scoreParallel`. -/
theorem exists_run_to_return (c : Config) (files : List String)
    (hok : ∀ x ∈ files, ∃ o, ScoreFrame c.env c.uploadLink (mkFrame c x) = .ok o)
    (n : ℕ) (s : Pipeline) (hp : s.potential ≤ n) (hs : s.sound c files) :
    ∃ sched t, run c s sched = some t ∧ t.mainDone = true := by
  induction n generalizing s with
  | zero =>
    cases hm : s.mainDone with
    | true => exact ⟨[], s, rfl, hm⟩
    | false =>
      exfalso
      simp [Pipeline.potential, hm] at hp
  | succ k ih =>
    cases hm : s.mainDone with
    | true => exact ⟨[], s, rfl, hm⟩
    | false =>
      obtain ⟨a, ha⟩ := step_progress c s hs.2.1 hm
      obtain ⟨u, hu⟩ := Option.isSome_iff_exists.mp ha
      have hlt := step_potential c a s u hu
      obtain ⟨sched, t, hrun, ht⟩ := ih u (by omega) (step_sound c files a s u hok hu hs)
      exact ⟨a :: sched, t, by rw [run_cons, hu]; exact hrun, ht⟩

theorem coe_map_perm {α : Type} (l m : List α) (h : (↑l : Multiset α) = ↑m) : l.Perm m :=
  Multiset.coe_eq_coe.mp h

theorem targetRecords_eq (c : Config) (files : List String) (f : String → Output)
    (hok : ∀ x ∈ files, ScoreFrame c.env c.uploadLink (mkFrame c x) = .ok (f x)) :
    targetRecords c files = ↑(files.map fun x => outcome c (f x)) := by
  unfold targetRecords
  congr 1
  apply List.map_congr_left
  intro x hx
  simp [recordOf, hok x hx]

/-! ## fanInOutput -/

theorem fromInput_append (i k : ℕ) (v : Output) (log : List (ℕ × Output)) :
    fromInput i (log ++ [(k, v)]) = fromInput i log ++ (if k = i then [v] else []) := by
  unfold fromInput
  by_cases h : k = i
  · simp [List.filter_append, h, List.filter_cons]
  · simp [List.filter_append, h, List.filter_cons]

theorem getElem?_set_cases {α : Type} (l : List α) (i j : ℕ) (x y : α)
    (h : (l.set i x)[j]? = some y) : (j = i ∧ y = x) ∨ (j ≠ i ∧ l[j]? = some y) := by
  by_cases hji : j = i
  · subst hji
    left
    rw [List.getElem?_set] at h
    simp only [if_true] at h
    split at h
    · exact ⟨rfl, (Option.some.inj h).symm⟩
    · cases h
  · right
    rw [List.getElem?_set_ne (Ne.symm hji)] at h
    exact ⟨hji, h⟩

theorem lt_length_of_getElem? {α : Type} (l : List α) (i : ℕ) (x : α) (h : l[i]? = some x) :
    i < l.length := by
  by_contra hn
  rw [List.getElem?_eq_none (by omega)] at h
  cases h

theorem fanStep_wellFormed (inputs : List (List Output)) (a : FanAction) (s t : FanIn)
    (h : fanStep a s = some t) (hs : s.wellFormed inputs) : t.wellFormed inputs := by
  obtain ⟨hd, htag, hagg, hfd⟩ := hs
  unfold fanStep at h
  cases a with
  | closeAggregate =>
    simp only at h
    split at h
    · rename_i hcond
      simp only [Option.some.injEq] at h
      subst h
      refine ⟨hd, htag, fun _ => ?_, hfd⟩
      simpa using hcond.2
    · cases h
  | cancelRelay i =>
    simp only at h
    (repeat' (split at h)) <;> (first | (simp at h; done) | skip)
    simp_all
  | feed i =>
    simp only at h
    cases hi : s.feeds[i]? with
    | none => simp [hi] at h
    | some fd =>
      obtain ⟨hseq, hcl, hex⟩ := hfd i fd hi
      have hmem := List.getElem?_mem hi
      simp only [hi] at h
      (repeat' (split at h)) <;> (first | (simp at h; done) | skip)
      rename_i v rest hp hcond
      simp only [Option.some.injEq] at h
      subst h
      refine ⟨hd, htag, fun hc => ?_, fun j fd2 hj => ?_⟩
      · have := hagg hc fd hmem
        simp [hcond.2] at this
      · rcases getElem?_set_cases _ _ _ _ _ hj with ⟨rfl, rfl⟩ | ⟨-, hj2⟩
        · simp_all [Stg.held]
        · exact hfd j fd2 hj2
  | closeInput i =>
    simp only at h
    cases hi : s.feeds[i]? with
    | none => simp [hi] at h
    | some fd =>
      obtain ⟨hseq, hcl, hex⟩ := hfd i fd hi
      have hmem := List.getElem?_mem hi
      simp only [hi] at h
      (repeat' (split at h)) <;> (first | (simp at h; done) | skip)
      rename_i hcond
      simp only [Option.some.injEq] at h
      subst h
      refine ⟨hd, htag, fun hc => ?_, fun j fd2 hj => ?_⟩
      · intro fd2 hfd2
        rcases List.mem_or_eq_of_mem_set hfd2 with hm | rfl
        · exact hagg hc fd2 hm
        · exact hagg hc fd hmem
      · rcases getElem?_set_cases _ _ _ _ _ hj with ⟨rfl, rfl⟩ | ⟨-, hj2⟩
        · simp_all [Stg.held]
        · exact hfd j fd2 hj2
  | relayEnd i =>
    simp only at h
    cases hi : s.feeds[i]? with
    | none => simp [hi] at h
    | some fd =>
      obtain ⟨hseq, hcl, hex⟩ := hfd i fd hi
      have hmem := List.getElem?_mem hi
      simp only [hi] at h
      (repeat' (split at h)) <;> (first | (simp at h; done) | skip)
      rename_i hcond
      simp only [Option.some.injEq] at h
      subst h
      refine ⟨hd, htag, fun hc => ?_, fun j fd2 hj => ?_⟩
      · intro fd2 hfd2
        rcases List.mem_or_eq_of_mem_set hfd2 with hm | rfl
        · exact hagg hc fd2 hm
        · rfl
      · rcases getElem?_set_cases _ _ _ _ _ hj with ⟨rfl, rfl⟩ | ⟨-, hj2⟩
        · simp_all [Stg.held]
        · exact hfd j fd2 hj2
  | forward i =>
    simp only at h
    cases hi : s.feeds[i]? with
    | none => simp [hi] at h
    | some fd =>
      obtain ⟨hseq, hcl, hex⟩ := hfd i fd hi
      have hmem := List.getElem?_mem hi
      have hlt := lt_length_of_getElem? _ _ _ hseq
      simp only [hi] at h
      (repeat' (split at h)) <;> (first | (simp at h; done) | skip)
      rename_i v hrel
      simp only [Option.some.injEq] at h
      subst h
      refine ⟨hd, ?_, fun hc => ?_, fun j fd2 hj => ?_⟩
      · intro p hp
        rcases List.mem_append.mp hp with hp1 | hp1
        · exact htag p hp1
        · simp only [List.mem_singleton] at hp1
          subst hp1
          exact hlt
      · have := hagg hc fd hmem
        simp [hrel] at this
      · rcases getElem?_set_cases _ _ _ _ _ hj with ⟨rfl, rfl⟩ | ⟨hne, hj2⟩
        · simp_all [Stg.held, fromInput_append]
        · have := hfd j fd2 hj2
          simp only [fromInput_append, if_neg (Ne.symm hne), List.append_nil]
          exact this

theorem fanStep_length (a : FanAction) (s t : FanIn) (h : fanStep a s = some t) :
    t.feeds.length = s.feeds.length := by
  unfold fanStep at h
  cases a <;> simp only at h <;> (repeat' (split at h)) <;>
    (first | (simp at h; done) | skip) <;>
    (simp only [Option.some.injEq] at h; subst h) <;>
    simp

theorem fanRun_cons (s : FanIn) (a : FanAction) (as : List FanAction) :
    fanRun s (a :: as) = (fanStep a s).bind fun t => fanRun t as := by
  cases h : fanStep a s <;> simp [fanRun, h]

theorem fanRun_wellFormed (inputs : List (List Output)) (sched : List FanAction) (s t : FanIn)
    (h : fanRun s sched = some t) (hs : s.wellFormed inputs ∧ s.feeds.length = inputs.length) :
    t.wellFormed inputs ∧ t.feeds.length = inputs.length := by
  induction sched generalizing s with
  | nil =>
    simp only [fanRun, Option.some.injEq] at h
    subst h
    exact hs
  | cons a as ih =>
    rw [fanRun_cons] at h
    cases hst : fanStep a s with
    | none => simp [hst] at h
    | some u =>
      simp only [hst, Option.some_bind] at h
      exact ih u h ⟨fanStep_wellFormed inputs a s u hst hs.1,
        (fanStep_length a s u hst).trans hs.2⟩

theorem init_wellFormed (inputs : List (List Output)) :
    (FanIn.init inputs).wellFormed inputs ∧ (FanIn.init inputs).feeds.length = inputs.length := by
  refine ⟨⟨rfl, ?_, ?_, ?_⟩, by simp [FanIn.init]⟩
  · simp [FanIn.init]
  · simp [FanIn.init]
  · intro i fd hi
    simp only [FanIn.init, List.getElem?_map] at hi
    cases hx : inputs[i]? with
    | none => simp [hx] at hi
    | some xs =>
      simp only [hx, Option.map_some', Option.some.injEq] at hi
      subst hi
      simp [FanIn.init, fromInput, Stg.held]

/-- C8: along every schedule of `fanInOutput` over any finite list of input channels,
without cancellation, every delivered value carries the index of an input channel, the
values delivered from input `i` are an initial part of the sequence of input `i`, in its
order; and once `aggregateStream` is closed they are the whole sequence of input `i`,
whose channel is closed and drained and whose goroutine has exited. -/
theorem fanInOutput_interleaves (inputs : List (List Output)) (sched : List FanAction)
    (s : FanIn) (hrun : fanInOutput inputs sched = some s) :
    s.done = false ∧
    (∀ p ∈ s.aggLog, p.1 < inputs.length) ∧
    (∀ (i : ℕ) (xs : List Output), inputs[i]? = some xs →
      ∃ rest, fromInput i s.aggLog ++ rest = xs) ∧
    (s.aggClosed = true → ∀ (i : ℕ) (xs : List Output), inputs[i]? = some xs →
      fromInput i s.aggLog = xs ∧
      ∃ fd, s.feeds[i]? = some fd ∧ fd.closed = true ∧ fd.pending = [] ∧ fd.relay = .exited) := by
  obtain ⟨⟨hd, htag, hagg, hfd⟩, hlen⟩ :=
    fanRun_wellFormed inputs sched _ s hrun (init_wellFormed inputs)
  have hget : ∀ (i : ℕ) (xs : List Output), inputs[i]? = some xs →
      ∃ fd, s.feeds[i]? = some fd := by
    intro i xs hi
    have hlt : i < s.feeds.length := by
      rw [hlen]
      exact lt_length_of_getElem? _ _ _ hi
    exact ⟨s.feeds[i], List.getElem?_eq_getElem hlt⟩
  refine ⟨hd, htag, ?_, ?_⟩
  · intro i xs hi
    obtain ⟨fd, hfi⟩ := hget i xs hi
    obtain ⟨hseq, -, -⟩ := hfd i fd hfi
    rw [hi, Option.some.injEq] at hseq
    exact ⟨fd.relay.held ++ fd.pending, by rw [hseq, List.append_assoc]⟩
  · intro hc i xs hi
    obtain ⟨fd, hfi⟩ := hget i xs hi
    obtain ⟨hseq, hcl, hex⟩ := hfd i fd hfi
    have hrel := hagg hc fd (List.getElem?_mem hfi)
    have hclosed := hex hrel
    have hpend := hcl hclosed
    rw [hi, Option.some.injEq] at hseq
    refine ⟨?_, fd, hfi, hclosed, hpend, hrel⟩
    rw [hseq, hrel, hpend]
    simp [Stg.held]

theorem fanInOutput_interleaves_witness :
    ∃ s, fanInOutput sampleInputs sampleFanSchedule = some s ∧ s.aggClosed = true ∧
      s.aggLog = [(1, ⟨"c", score02, "car"⟩), (0, ⟨"a", score09, "cat"⟩),
        (0, ⟨"b", score05, "dog"⟩)] ∧
      fromInput 0 s.aggLog = [⟨"a", score09, "cat"⟩, ⟨"b", score05, "dog"⟩] ∧
      fromInput 1 s.aggLog = [⟨"c", score02, "car"⟩] := by
  obtain ⟨s, hs, hc, hlog⟩ : ∃ s, fanInOutput sampleInputs sampleFanSchedule = some s ∧
      s.aggClosed = true ∧ s.aggLog = [(1, ⟨"c", score02, "car"⟩), (0, ⟨"a", score09, "cat"⟩),
        (0, ⟨"b", score05, "dog"⟩)] := ⟨_, rfl, rfl, rfl⟩
  have h := (fanInOutput_interleaves sampleInputs sampleFanSchedule s hs).2.2.2 hc
  exact ⟨s, hs, hc, hlog, (h 0 _ rfl).1, (h 1 _ rfl).1⟩

/-! ## scoreParallel -/

theorem scenarioScore_ok :
    ∀ x ∈ ["a", "b", "c"],
      ScoreFrame scenarioConfig.env scenarioConfig.uploadLink (mkFrame scenarioConfig x)
        = .ok (scenarioScore x) := by
  intro x hx
  simp only [List.mem_cons, List.mem_singleton, List.not_mem_nil, or_false] at hx
  rcases hx with rfl | rfl | rfl
  · exact scenario_a
  · exact scenario_b
  · exact scenario_c

theorem sampleSchedule_runs :
    ∃ t, scoreParallel scenarioConfig ["a", "b", "c"] 2 sampleSchedule = some t ∧
      t.mainDone = true ∧
      t.received = [failRecord ⟨"b", score05, "dog"⟩, passRecord ⟨"a", score09, "cat"⟩,
        failRecord ⟨"c", score02, "car"⟩] := by
  simp [scoreParallel, sampleSchedule, run, step, Pipeline.init, mkFrame, scenarioConfig, scenario_a,
    scenario_b, scenario_c, FilterAndMoveOutput_eq, NewScorer, gt_09_05, gt_05_05, gt_02_05]

theorem scoreSequential_ok (c : Config) (files : List String) (f : String → Output)
    (hok : ∀ x ∈ files, ScoreFrame c.env c.uploadLink (mkFrame c x) = .ok (f x)) :
    (scoreSequential c files).1 = none ∧
      (scoreSequential c files).2.results = files.map fun x => outcome c (f x) := by
  obtain ⟨tr2, h1, h2⟩ := seqLoop_append_ok c (NewScorer c.allFrames c.goodFrames c.threshold)
    f files [] hok { effects := [], results := [], logged := [] }
  rw [List.append_nil] at h1
  unfold scoreSequential
  rw [h1]
  simp only [seqLoop, true_and, h2, List.nil_append]
  rfl

theorem exists_of_ok (c : Config) (files : List String) (f : String → Output)
    (hok : ∀ x ∈ files, ScoreFrame c.env c.uploadLink (mkFrame c x) = .ok (f x)) :
    ∀ x ∈ files, ∃ o, ScoreFrame c.env c.uploadLink (mkFrame c x) = .ok o :=
  fun x hx => ⟨f x, hok x hx⟩

/-- C5: with at least one worker and every file scored by `ScoreFrame`, some schedule
of `scoreParallel` runs to its return; every schedule is bounded, never stops the
process and can go on until the return; and at the return the loop has received exactly
one record per file (a rearrangement of the records of the files), each frame having
been handed to a worker exactly once. -/
theorem scoreParallel_one_record_per_file (c : Config) (files : List String)
    (threadCount : ℕ) (f : String → Output) (hN : 1 ≤ threadCount)
    (hok : ∀ x ∈ files, ScoreFrame c.env c.uploadLink (mkFrame c x) = .ok (f x)) :
    (∃ sched s, scoreParallel c files threadCount sched = some s ∧ s.mainDone = true) ∧
    ∀ sched s, scoreParallel c files threadCount sched = some s →
      sched.length ≤ 5 * files.length + 2 * threadCount + 6 ∧
      s.crashed = none ∧
      (s.mainDone = false → ∃ a, (step c a s).isSome = true) ∧
      (s.mainDone = true →
        s.received.length = files.length ∧
        s.received.Perm (files.map fun x => outcome c (f x)) ∧
        s.framesLog = files.map (mkFrame c)) := by
  have hok2 := exists_of_ok c files f hok
  have hinit := init_sound c files threadCount hN
  refine ⟨exists_run_to_return c files hok2 _ _ (le_refl _) hinit, ?_⟩
  intro sched s hrun
  have hs := run_sound c files sched _ s hok2 hrun hinit
  have hp := run_potential c sched _ s hrun
  rw [init_potential] at hp
  refine ⟨by omega, hs.2.1, fun hm => step_progress c s hs.2.1 hm, fun hm => ?_⟩
  rcases hs.2.2 with ⟨-, hm2, -⟩ | ⟨-, -, hlog, hrec⟩
  · rw [hm] at hm2
    cases hm2
  · rw [targetRecords_eq c files f hok] at hrec
    have hperm := coe_map_perm _ _ hrec
    exact ⟨by simpa using hperm.length_eq, hperm, hlog⟩

theorem scoreParallel_one_record_per_file_witness :
    ∃ s, scoreParallel scenarioConfig ["a", "b", "c"] 2 sampleSchedule = some s ∧
      s.received = [failRecord ⟨"b", score05, "dog"⟩, passRecord ⟨"a", score09, "cat"⟩,
        failRecord ⟨"c", score02, "car"⟩] ∧
      s.received.length = 3 ∧
      s.received.Perm (["a", "b", "c"].map fun x => outcome scenarioConfig (scenarioScore x)) := by
  obtain ⟨s, hs, hm, hr⟩ := sampleSchedule_runs
  have h := ((scoreParallel_one_record_per_file scenarioConfig ["a", "b", "c"] 2 scenarioScore
    (by decide) scenarioScore_ok).2 sampleSchedule s hs).2.2.2 hm
  exact ⟨s, hs, hr, h.1, h.2.1⟩

/-- C6: with every file scored by `ScoreFrame` and `K ≥ 1` workers, `scoreSequential`
computes one record per file in order, some schedule of `scoreParallel` runs to its
return, and at the return of every schedule the records received by `scoreParallel`
are, as a multiset, the records computed by `scoreSequential`. -/
theorem scoreSequential_scoreParallel_same_records (c : Config) (files : List String)
    (K : ℕ) (f : String → Output) (hK : 1 ≤ K)
    (hok : ∀ x ∈ files, ScoreFrame c.env c.uploadLink (mkFrame c x) = .ok (f x)) :
    (scoreSequential c files).1 = none ∧
    (scoreSequential c files).2.results =
      files.map (fun x =>
        (FilterAndMoveOutput (NewScorer c.allFrames c.goodFrames c.threshold) (f x) []).1) ∧
    (∃ sched s, scoreParallel c files K sched = some s ∧ s.mainDone = true) ∧
    ∀ sched s, scoreParallel c files K sched = some s → s.mainDone = true →
      (↑s.received : Multiset String) = ↑(scoreSequential c files).2.results := by
  have hok2 := exists_of_ok c files f hok
  have hinit := init_sound c files K hK
  obtain ⟨hseq1, hseq2⟩ := scoreSequential_ok c files f hok
  refine ⟨hseq1, hseq2, exists_run_to_return c files hok2 _ _ (le_refl _) hinit, ?_⟩
  intro sched s hrun hm
  have hs := run_sound c files sched _ s hok2 hrun hinit
  rcases hs.2.2 with ⟨-, hm2, -⟩ | ⟨-, -, -, hrec⟩
  · rw [hm] at hm2
    cases hm2
  · rw [hrec, targetRecords_eq c files f hok, hseq2]

theorem scoreSequential_scoreParallel_same_records_witness :
    ∃ s, scoreParallel scenarioConfig ["a", "b", "c"] 2 sampleSchedule = some s ∧
      s.mainDone = true ∧
      (↑s.received : Multiset String) = ↑(scoreSequential scenarioConfig ["a", "b", "c"]).2.results := by
  obtain ⟨s, hs, hm, -⟩ := sampleSchedule_runs
  exact ⟨s, hs, hm,
    (scoreSequential_scoreParallel_same_records scenarioConfig ["a", "b", "c"] 2 scenarioScore
      (by decide) scenarioScore_ok).2.2.2 sampleSchedule s hs hm⟩

theorem step_none_of_crashed (c : Config) (a : Action) (s : Pipeline)
    (h : s.crashed ≠ none) : step c a s = none := by
  unfold step
  simp [h]

/-- C9, as stated, fails: with `done` closed before anything was sent, `collectFileNames`
can still hand the name `c` to `gatherPaths` and `gatherPaths` the frame to a worker
(each `select` may take its send case), the worker evaluates `ScoreFrame`, the server
answers 500 and `log.Fatalf` stops the process: no goroutine can move any more, and
none of them has returned or closed its output. -/
theorem cancellation_can_end_in_fatal :
    ∃ t, run failingConfig (Pipeline.init ["c", "a", "b"] 2).fire fatalAfterCancel = some t ∧
      t.done = true ∧
      t.crashed = some (.fatal "Unable to Send: 500 Internal Server Error") ∧
      (∀ a, step failingConfig a t = none) ∧
      t.names = ["a", "b"] ∧ t.namesClosed = false ∧ t.gather = .recv ∧
      t.lanes = [⟨.recv, .recv⟩, ⟨.recv, .recv⟩] ∧ t.aggClosed = false ∧ t.filter = .recv ∧
      ¬ t.allExited := by
  obtain ⟨t, ht, hd, hc, h1, h2, h3, h4, h5, h6⟩ : ∃ t,
      run failingConfig (Pipeline.init ["c", "a", "b"] 2).fire fatalAfterCancel = some t ∧
      t.done = true ∧
      t.crashed = some (.fatal "Unable to Send: 500 Internal Server Error") ∧
      t.names = ["a", "b"] ∧ t.namesClosed = false ∧ t.gather = .recv ∧
      t.lanes = [⟨.recv, .recv⟩, ⟨.recv, .recv⟩] ∧ t.aggClosed = false ∧ t.filter = .recv :=
    ⟨_, rfl, rfl, rfl, rfl, rfl, rfl, rfl, rfl, rfl⟩
  refine ⟨t, ht, hd, hc, fun a => step_none_of_crashed failingConfig a t (by simp [hc]),
    h1, h2, h3, h4, h5, h6, ?_⟩
  intro he
  have := he.1
  rw [h2] at this
  cases this

/-- C9, amended: from any state of the pipeline, once `done` is closed every schedule is
no longer than the potential of the state, and as long as no `ScoreFrame` call a worker
still makes has stopped the process (every such call returns), either every stage
goroutine has returned and closed its output (and `scoreParallel` has returned) or some
goroutine can move: no stage stays blocked on a take or a send. -/
theorem cancellation_stops_every_stage (c : Config) (s : Pipeline) (sched : List Action)
    (t : Pipeline) (hrun : run c s.fire sched = some t) (hc : t.crashed = none) :
    sched.length + t.potential ≤ s.potential ∧ t.done = true ∧
    ((t.allExited ∧ t.mainDone = true) ∨ ∃ a, (step c a t).isSome = true) := by
  have hp := run_potential c sched _ t hrun
  have hd : t.done = true := run_done_true c sched _ t hrun rfl
  refine ⟨hp, hd, ?_⟩
  by_cases he : t.allExited ∧ t.mainDone = true
  · exact Or.inl he
  · exact Or.inr (step_progress_cancelled c t hc hd he)

theorem cancellation_stops_every_stage_witness :
    ∃ s t, scoreParallel scenarioConfig ["a", "b", "c"] 2 midRunSchedule = some s ∧
      s.names = ["c"] ∧
      run scenarioConfig s.fire midRunCancelSchedule = some t ∧
      t.crashed = none ∧ t.mainDone = true ∧ t.namesClosed = true ∧ t.gather = .exited ∧
      t.lanes = [⟨.exited, .exited⟩, ⟨.exited, .exited⟩] ∧ t.aggClosed = true ∧
      t.filter = .exited ∧ midRunCancelSchedule.length + t.potential ≤ s.potential ∧
      t.done = true := by
  obtain ⟨s, hs, hn⟩ : ∃ s,
      scoreParallel scenarioConfig ["a", "b", "c"] 2 midRunSchedule = some s ∧
      s.names = ["c"] := ⟨_, rfl, rfl⟩
  obtain ⟨t, ht, hc, h1, h2, h3, h4, h5, h6⟩ : ∃ t,
      run scenarioConfig s.fire midRunCancelSchedule = some t ∧
      t.crashed = none ∧ t.mainDone = true ∧ t.namesClosed = true ∧ t.gather = .exited ∧
      t.lanes = [⟨.exited, .exited⟩, ⟨.exited, .exited⟩] ∧ t.aggClosed = true ∧
      t.filter = .exited := by
    simp only [scoreParallel, midRunSchedule] at hs
    cases hs
    exact ⟨_, rfl, rfl, rfl, rfl, rfl, rfl, rfl, rfl⟩
  have h := cancellation_stops_every_stage scenarioConfig s midRunCancelSchedule t ht hc
  exact ⟨s, t, hs, hn, ht, hc, h1, h2, h3, h4, h5, h6, h.1, h.2.1⟩

/-! ## CreateSoundFrame -/

theorem digitChar_facts (d : ℕ) (hd : d < 10) :
    digitValue (Nat.digitChar d) = some d ∧ Nat.digitChar d ≠ '.' ∧ Nat.digitChar d ≠ '+' ∧
      Nat.digitChar d ≠ '-' ∧ (d ≠ 0 → Nat.digitChar d ≠ '0') := by
  interval_cases d <;> decide

theorem foldl_digits_ge (ds : List ℕ) (acc : ℕ) :
    acc ≤ ds.foldl (fun a d => a * 10 + d) acc := by
  induction ds generalizing acc with
  | nil => simp
  | cons d ds ih =>
    simp only [List.foldl_cons]
    have := ih (acc * 10 + d)
    omega

/-- On a string of decimal digits whose number fits `uint64`, the loop of `ParseUint`
reads the number. -/
theorem parseUintLoop_digits (ds : List ℕ) (acc : ℕ) (hd : ∀ d ∈ ds, d < 10)
    (hb : ds.foldl (fun a d => a * 10 + d) acc ≤ maxUint64) :
    parseUintLoop (ds.map Nat.digitChar) acc = (ds.foldl (fun a d => a * 10 + d) acc, none) := by
  induction ds generalizing acc with
  | nil => simp [parseUintLoop]
  | cons d ds ih =>
    have hd0 : d < 10 := hd d (List.mem_cons_self _ _)
    have hge := foldl_digits_ge ds (acc * 10 + d)
    simp only [List.foldl_cons] at hb
    have h1 : ¬ acc ≥ maxUint64 / 10 + 1 := by
      simp only [maxUint64] at hb hge ⊢
      omega
    have h2 : ¬ acc * 10 + d > maxUint64 := by omega
    simp only [List.map_cons, parseUintLoop, (digitChar_facts d hd0).1, h1, h2, if_false,
      List.foldl_cons]
    exact ih (acc * 10 + d) (fun x hx => hd x (List.mem_cons_of_mem _ hx)) hb

theorem foldl_reverse_digits (l : List ℕ) :
    l.reverse.foldl (fun a d => a * 10 + d) 0 = Nat.ofDigits 10 l := by
  induction l with
  | nil => simp
  | cons x l ih =>
    simp only [List.reverse_cons, List.foldl_append, List.foldl_cons, List.foldl_nil, ih,
      Nat.ofDigits_cons]
    omega

theorem decimal_pos (n : ℕ) (hn : 0 < n) :
    decimal n = (Nat.digits 10 n).reverse.map Nat.digitChar := by
  simp [decimal, Nat.pos_iff_ne_zero.mp hn]

theorem decimal_not_dot (n : ℕ) : ∀ ch ∈ decimal n, ch ≠ '.' := by
  intro ch hch
  by_cases hn : n = 0
  · subst hn
    simp only [decimal, if_true, List.mem_singleton] at hch
    subst hch
    decide
  · rw [decimal_pos n (Nat.pos_of_ne_zero hn)] at hch
    obtain ⟨d, hd, rfl⟩ := List.mem_map.mp hch
    exact (digitChar_facts d (Nat.digits_lt_base (by norm_num) (List.mem_reverse.mp hd))).2.1

/-- The digits of a positive number begin with a digit other than zero. -/
theorem decimal_head (n : ℕ) (hn : 0 < n) :
    ∃ d rest, d < 10 ∧ d ≠ 0 ∧ decimal n = Nat.digitChar d :: rest := by
  have hne : Nat.digits 10 n ≠ [] := Nat.digits_ne_nil_iff_ne_zero.mpr (Nat.pos_iff_ne_zero.mp hn)
  have hlast := Nat.getLast_digit_ne_zero 10 (Nat.pos_iff_ne_zero.mp hn)
  have hmem := List.getLast_mem hne
  have hlt := Nat.digits_lt_base (b := 10) (by norm_num) hmem
  refine ⟨(Nat.digits 10 n).getLast hne, ((Nat.digits 10 n).dropLast.reverse).map Nat.digitChar,
    hlt, hlast, ?_⟩
  rw [decimal_pos n hn]
  conv_lhs => rw [← List.dropLast_append_getLast hne]
  simp

/-- `ParseInt` reads back the decimal digits of a positive number below `2^63`. -/
theorem ParseInt_decimal (n : ℕ) (hn : 0 < n) (hb : n < 9223372036854775808) :
    ParseInt (String.mk (decimal n)) = ((n : ℤ), none) := by
  obtain ⟨d, rest, hd, -, hdec⟩ := decimal_head n hn
  have hval : (Nat.digits 10 n).reverse.foldl (fun a d => a * 10 + d) 0 = n := by
    rw [foldl_reverse_digits, Nat.ofDigits_digits]
  have hloop : parseUintLoop (decimal n) 0 = (n, none) := by
    rw [decimal_pos n hn]
    have := parseUintLoop_digits (Nat.digits 10 n).reverse 0
      (fun x hx => Nat.digits_lt_base (by norm_num) (List.mem_reverse.mp hx))
      (by rw [hval]; simp only [maxUint64]; omega)
    rw [this, hval]
  obtain ⟨-, -, hplus, hminus, -⟩ := digitChar_facts d hd
  rw [hdec] at hloop
  have hb2 : ¬ (9223372036854775808 ≤ n) := by omega
  simp [ParseInt, hdec, ParseUint, hloop, hplus, hminus, hb2]

theorem takeWhile_append_stop {α : Type} (p : α → Bool) (l r : List α) (a : α)
    (hl : ∀ x ∈ l, p x = true) (ha : p a = false) :
    (l ++ a :: r).takeWhile p = l := by
  induction l with
  | nil => simp [List.takeWhile, ha]
  | cons x xs ih =>
    rw [List.cons_append, List.takeWhile_cons, hl x (List.mem_cons_self _ _), if_pos rfl,
      ih (fun y hy => hl y (List.mem_cons_of_mem _ hy))]

theorem dropWhile_replicate_append {α : Type} (p : α → Bool) (k : ℕ) (a : α) (l : List α)
    (ha : p a = true) : (List.replicate k a ++ l).dropWhile p = l.dropWhile p := by
  induction k with
  | zero => simp
  | succ k ih => simp [List.replicate_succ, List.dropWhile, ha, ih]

theorem splitFirst_paddedName (pad n : ℕ) (ext : String) :
    splitFirst (paddedName pad n ext) = String.mk (List.replicate pad '0' ++ decimal n) := by
  unfold splitFirst paddedName
  congr 1
  simp only [String.data_append, List.append_assoc]
  rw [List.singleton_append, ← List.append_assoc]
  apply takeWhile_append_stop
  · intro x hx
    rcases List.mem_append.mp hx with h | h
    · rw [List.eq_of_mem_replicate h]
      decide
    · simpa using decimal_not_dot n x h
  · decide

theorem TrimLeft_padded (pad n : ℕ) :
    TrimLeft (String.mk (List.replicate pad '0' ++ decimal n)) "0" =
      if n = 0 then "" else String.mk (decimal n) := by
  unfold TrimLeft
  have hzero : (fun ch : Char => "0".data.contains ch) '0' = true := by decide
  simp only [dropWhile_replicate_append _ pad '0' _ hzero]
  by_cases hn : n = 0
  · subst hn
    simp only [decimal, if_true, List.dropWhile, hzero]
  · obtain ⟨d, rest, hd, hd0, hdec⟩ := decimal_head n (Nat.pos_of_ne_zero hn)
    have hne := (digitChar_facts d hd).2.2.2.2 hd0
    have hfalse : "0".data.contains (Nat.digitChar d) = false := by
      have h0 : "0".data = ['0'] := rfl
      simp [h0, hne]
    simp only [hn, if_false, hdec, List.dropWhile, hfalse]
theorem parseFrameName_padded (pad n : ℕ) (ext : String) (hb : n < 9223372036854775808) :
    parseFrameName (paddedName pad n ext) =
      (String.mk (List.replicate pad '0' ++ decimal n), (n : ℤ)) := by
  unfold parseFrameName
  simp only [splitFirst_paddedName, TrimLeft_padded]
  by_cases hn : n = 0
  · subst hn
    simp [ParseInt]
  · simp only [hn, if_false, ParseInt_decimal n (Nat.pos_of_ne_zero hn) hb]

theorem decimal_10 : decimal 10 = ['1', '0'] := by
  simp [decimal]
  decide

theorem decimal_2_63 : decimal 9223372036854775808 =
    ['9', '2', '2', '3', '3', '7', '2', '0', '3', '6', '8', '5', '4', '7', '7', '5', '8',
      '0', '8'] := by
  simp [decimal]
  decide

/-- C11, as stated, fails: the name `%09d.jpg` gives frame 2^63 is
`9223372036854775808.jpg`, and from it `CreateSoundFrame` parses 2^63 - 1, the largest
`int64`, not 2^63. -/
theorem CreateSoundFrame_saturates_at_int64 :
    frameFileName 9223372036854775808 = "9223372036854775808.jpg" ∧
    parseFrameName "9223372036854775808.jpg" = ("9223372036854775808", 9223372036854775807) ∧
    (parseFrameName (frameFileName 9223372036854775808)).2 ≠ ((9223372036854775808 : ℕ) : ℤ) := by
  have h1 : frameFileName 9223372036854775808 = "9223372036854775808.jpg" := by
    simp only [frameFileName, paddedName, decimal_2_63]
    decide
  have h2 : parseFrameName "9223372036854775808.jpg"
      = ("9223372036854775808", 9223372036854775807) := by decide
  refine ⟨h1, h2, ?_⟩
  rw [h1, h2]
  decide

/-- C11, amended: for every natural number `n` below 2^63, every number of padding
zeros and every extension, from the name made of the zeros, the decimal digits of `n`,
a dot and the extension (so from the name `%09d.jpg` gives frame `n`) `CreateSoundFrame`
takes the part before the dot as frame name, parses frame number exactly `n` (0 for an
all-zero stem) and names the audio slice `goodSoundFrames + "/" + stem + ".aac"`. -/
theorem CreateSoundFrame_parses_frame_number (f : framer) (tm : ClipTiming) (pad n : ℕ)
    (ext : String) (hb : n < 9223372036854775808) :
    parseFrameName (paddedName pad n ext) =
      (String.mk (List.replicate pad '0' ++ decimal n), (n : ℤ)) ∧
    f.CreateSoundFrame tm (paddedName pad n ext) =
      ["-i", f.allSoundFrames ++ "/output-audio.aac", "-ss",
        tm.stuff f.duration f.frameCount (n : ℤ), "-t", tm.size f.hertz, "-c", "copy",
        f.goodSoundFrames ++ "/" ++ String.mk (List.replicate pad '0' ++ decimal n) ++ ".aac"] ∧
    (parseFrameName (frameFileName n)).2 = (n : ℤ) ∧
    (parseFrameName (paddedName pad 0 ext)).2 = 0 := by
  have h := parseFrameName_padded pad n ext hb
  refine ⟨h, ?_, ?_, ?_⟩
  · simp only [framer.CreateSoundFrame, h]
  · simp only [frameFileName, parseFrameName_padded _ n "jpg" hb]
  · simp only [parseFrameName_padded pad 0 ext (by decide)]
    rfl

theorem CreateSoundFrame_parses_frame_number_witness :
    (10 : ℕ) < 9223372036854775808 ∧
    paddedName 7 10 "jpg" = "000000010.jpg" ∧
    frameFileName 10 = "000000010.jpg" ∧
    parseFrameName "000000010.jpg" = ("000000010", 10) ∧
    sampleFramer.CreateSoundFrame ⟨fun _ => "00:00:01", fun _ _ n => toString n⟩ "000000010.jpg" =
      ["-i", "allSound/output-audio.aac", "-ss", "10", "-t", "00:00:01", "-c", "copy",
        "goodSound/000000010.aac"] := by
  have hname : paddedName 7 10 "jpg" = "000000010.jpg" := by
    simp only [paddedName, decimal_10]
    decide
  have hfile : frameFileName 10 = "000000010.jpg" := by
    simp only [frameFileName, paddedName, decimal_10]
    decide
  have hstem : String.mk (List.replicate 7 '0' ++ decimal 10) = "000000010" := by
    simp only [decimal_10]
    decide
  have h := CreateSoundFrame_parses_frame_number sampleFramer
    ⟨fun _ => "00:00:01", fun _ _ n => toString n⟩ 7 10 "jpg" (by decide)
  rw [hname, hstem] at h
  refine ⟨by decide, hname, hfile, h.1, ?_⟩
  rw [h.2.1]
  decide

/-! ## gatherPaths over collectFileNames -/

theorem streamStep_potential (inputPath outputPath : String) (a : StreamAction)
    (s t : FrameStream) (h : streamStep inputPath outputPath a s = some t) :
    t.potential < s.potential := by
  unfold streamStep at h
  cases a <;> simp only at h <;> (repeat' (split at h)) <;>
    (first | (simp at h; done) | skip) <;>
    (simp only [Option.some.injEq] at h; subst h) <;>
    simp only [FrameStream.potential] <;>
    first
    | (simp_all [Stg.cost]; done)
    | (simp_all [Stg.cost]; omega)

theorem streamStep_ordered (inputPath outputPath : String) (files : List String)
    (a : StreamAction) (s t : FrameStream)
    (h : streamStep inputPath outputPath a s = some t)
    (hs : s.ordered inputPath outputPath files) : t.ordered inputPath outputPath files := by
  obtain ⟨hd, h1, h2, h3⟩ := hs
  unfold streamStep at h
  cases a <;> simp only at h <;> (repeat' (split at h)) <;>
    (first | (simp at h; done) | skip) <;>
    (simp only [Option.some.injEq] at h; subst h) <;>
    simp_all [FrameStream.ordered, Stg.held]

/-- Without cancellation the stream never stalls: until `intStream` is closed, a
goroutine can move or the receiver can take the frame on offer. -/
theorem streamStep_progress (inputPath outputPath : String) (s : FrameStream)
    (hg : s.gather ≠ .exited) :
    ∃ a, (streamStep inputPath outputPath a s).isSome = true := by
  cases hgs : s.gather with
  | exited => exact absurd hgs hg
  | send v => exact ⟨.take, by simp [streamStep, hgs]⟩
  | recv =>
    by_cases hn : s.namesClosed = true
    · exact ⟨.gatherEnd, by simp [streamStep, hgs, hn]⟩
    cases hnames : s.names with
    | nil => exact ⟨.closeNames, by simpa [streamStep, hnames] using hn⟩
    | cons i rest => exact ⟨.sendName, by simpa [streamStep, hnames, hgs] using hn⟩

theorem streamRun_cons (inputPath outputPath : String) (s : FrameStream) (a : StreamAction)
    (as : List StreamAction) :
    streamRun inputPath outputPath s (a :: as) =
      (streamStep inputPath outputPath a s).bind fun t => streamRun inputPath outputPath t as := by
  cases h : streamStep inputPath outputPath a s <;> simp [streamRun, h]

theorem streamRun_ordered (inputPath outputPath : String) (files : List String)
    (sched : List StreamAction) (s t : FrameStream)
    (h : streamRun inputPath outputPath s sched = some t)
    (hs : s.ordered inputPath outputPath files) :
    t.ordered inputPath outputPath files ∧ sched.length + t.potential ≤ s.potential := by
  induction sched generalizing s with
  | nil =>
    simp only [streamRun, Option.some.injEq] at h
    subst h
    exact ⟨hs, by simp⟩
  | cons a as ih =>
    rw [streamRun_cons] at h
    cases hst : streamStep inputPath outputPath a s with
    | none => simp [hst] at h
    | some u =>
      simp only [hst, Option.some_bind] at h
      obtain ⟨h1, h2⟩ := ih u h (streamStep_ordered inputPath outputPath files a s u hst hs)
      have h3 := streamStep_potential inputPath outputPath a s u hst
      refine ⟨h1, ?_⟩
      simp only [List.length_cons]
      omega

theorem init_ordered (inputPath outputPath : String) (files : List String) :
    (FrameStream.init files).ordered inputPath outputPath files := by
  simp [FrameStream.ordered, FrameStream.init, Stg.held]

/-- From every state some schedule leads to the close of `intStream`. -/
theorem exists_streamRun_to_close (inputPath outputPath : String) (n : ℕ) (s : FrameStream)
    (hp : s.potential ≤ n) :
    ∃ sched t, streamRun inputPath outputPath s sched = some t ∧ t.gather = .exited := by
  induction n generalizing s with
  | zero =>
    cases hg : s.gather with
    | exited => exact ⟨[], s, rfl, hg⟩
    | recv => simp [FrameStream.potential, hg, Stg.cost] at hp
    | send v => simp [FrameStream.potential, hg, Stg.cost] at hp
  | succ k ih =>
    by_cases hg : s.gather = .exited
    · exact ⟨[], s, rfl, hg⟩
    · obtain ⟨a, ha⟩ := streamStep_progress inputPath outputPath s hg
      obtain ⟨u, hu⟩ := Option.isSome_iff_exists.mp ha
      have hlt := streamStep_potential inputPath outputPath a s u hu
      obtain ⟨sched, t, hrun, ht⟩ := ih u (by omega)
      exact ⟨a :: sched, t, by rw [streamRun_cons, hu]; exact hrun, ht⟩

/-- C7: for every list of files and every pair of paths, without cancellation: some
schedule carries the stream of `gatherPaths(collectFileNames(files))` to its close; no
schedule is longer than `2 * len(files) + 2` steps; along every schedule the frames
taken from the stream, the frame on offer and the frames of the names still to come
are the frames of the files in the order of the list, each with the name of its file
and the two given paths; until the stream is closed some goroutine or the receiver can
move; and once it is closed the frames taken are exactly those of the files, in
order, nothing skipped or duplicated. -/
theorem gatherPaths_carries_every_frame (inputPath outputPath : String)
    (files : List String) :
    (∃ sched s, gatherPaths inputPath outputPath files sched = some s ∧
      s.gather = .exited) ∧
    ∀ sched s, gatherPaths inputPath outputPath files sched = some s →
      s.done = false ∧
      sched.length ≤ 2 * files.length + 2 ∧
      s.delivered ++ s.gather.held ++
          s.names.map (fun i =>
            { Filename := i, AllFramesPath := inputPath, GoodFramesPath := outputPath }) =
        files.map (fun i =>
          { Filename := i, AllFramesPath := inputPath, GoodFramesPath := outputPath }) ∧
      (s.gather ≠ .exited →
        ∃ a, (streamStep inputPath outputPath a s).isSome = true) ∧
      (s.gather = .exited →
        s.delivered = files.map (fun i =>
          { Filename := i, AllFramesPath := inputPath, GoodFramesPath := outputPath })) := by
  refine ⟨exists_streamRun_to_close inputPath outputPath _ _ (le_refl _), ?_⟩
  intro sched s hrun
  obtain ⟨⟨hd, h1, h2, h3⟩, hp⟩ := streamRun_ordered inputPath outputPath files sched _ s hrun
    (init_ordered inputPath outputPath files)
  have hinit : (FrameStream.init files).potential = 2 * files.length + 2 := by
    simp [FrameStream.potential, FrameStream.init, Stg.cost]
  rw [hinit] at hp
  refine ⟨hd, by omega, h3, streamStep_progress inputPath outputPath s, fun hg => ?_⟩
  have hnames := h1 (h2 hg)
  simpa [hg, hnames, Stg.held] using h3

theorem gatherPaths_carries_every_frame_witness :
    ∃ s, gatherPaths "all" "good" ["a", "b", "c"] sampleStreamSchedule = some s ∧
      s.gather = .exited ∧
      s.delivered = [⟨"a", "all", "good"⟩, ⟨"b", "all", "good"⟩, ⟨"c", "all", "good"⟩] ∧
      sampleStreamSchedule.length ≤ 2 * 3 + 2 := by
  obtain ⟨s, hs, hg⟩ : ∃ s, gatherPaths "all" "good" ["a", "b", "c"] sampleStreamSchedule
      = some s ∧ s.gather = .exited := ⟨_, rfl, rfl⟩
  have h := (gatherPaths_carries_every_frame "all" "good" ["a", "b", "c"]).2
    sampleStreamSchedule s hs
  exact ⟨s, hs, hg, h.2.2.2.2 hg, h.2.1⟩

end VideoShortener
